import Mathlib

/-!
Verification development for the Homevolt battery optimizer
(`homevolt_optimizer.py`).

Shallow embedding conventions:
* Python floats are modelled as rationals (`ℚ`); the algorithms use only
  `+ - * / min max` and comparisons, so the structure is preserved exactly.
* The settings module's constants are gathered in a `Config` record that is
  passed explicitly to every function (the source reads them as globals).
* A timeline slot keeps exactly the fields the core algorithms read or write
  (`price`, `hour`, `base_net_load_wh`, `grid_wh`, `batt_wh`).  The source's
  `index` field always equals the slot's position in the timeline list (it is
  set to the position at construction and never changed), so positions are
  used directly.  The `hour` label is a two-digit zero-padded string in the
  source; comparing / sorting those strings agrees with comparing the numbers
  they denote, so it is modelled as `Nat`.
* Python runtime errors reachable in the source (`KeyError` on
  `hourly_usage[h] += take` for an absent key, `NameError` on the undefined
  variable `prof` in `phase_4_active_arbitrage`, `ValueError` of `max([])`,
  `IndexError`) are modelled with `Except String`.
* Python's stable in-place `list.sort(key=...)` is modelled by
  `List.insertionSort`, which is also stable for the total preorders used
  here, hence extensionally identical.
* `for` loops with an early `break` are modelled by structural recursion that
  stops at the break condition.
-/

namespace Homevolt

instance {ε α : Type} [DecidableEq ε] [DecidableEq α] : DecidableEq (Except ε α) :=
  fun x y =>
    match x, y with
    | .ok a, .ok b =>
        if h : a = b then .isTrue (by rw [h]) else
          .isFalse (fun hc => h (Except.ok.inj hc))
    | .error a, .error b =>
        if h : a = b then .isTrue (by rw [h]) else
          .isFalse (fun hc => h (Except.error.inj hc))
    | .ok _, .error _ => .isFalse (fun hc => Except.noConfusion hc)
    | .error _, .ok _ => .isFalse (fun hc => Except.noConfusion hc)

/-- Constants imported from `homevolt_optimizer_settings.py` (plus the derived
`TOTAL_ADDITIONAL_FEES = ADDITIONAL_FEES_TAX_ORE + ADDITIONAL_FEES_GRID_ORE`
and `PREVIOUS_PEAK_WH = PREVIOUS_MONTHLY_HOUR_PEAK_POWER_KW * 1000`), restricted
to those the core phases read. -/
structure Config where
  BATTERY_ENERGY_WH : ℚ
  BIAS_WH_PER_QUARTER : ℚ
  MAX_BATTERY_OUTPUT_PER_QUARTER_WH : ℚ
  LOW_SOC_THROTTLE_WH : ℚ
  LOW_SOC_MAX_OUTPUT_PER_QUARTER_WH : ℚ
  MIN_BATTERY_BUFFER_WH : ℚ
  PREVIOUS_PEAK_WH : ℚ
  TOTAL_ADDITIONAL_FEES : ℚ
  BATTERY_CYCLE_COST_ORE : ℚ
  MIN_PRICE_DIFF_ORE_FOR_SELLING : ℚ
  TRY_KEEP_HOURS_BELOW_WH : Option ℚ
  ENABLE_ARBITRAGE : Bool
deriving Repr, DecidableEq

/-- One quarter-hour timeline slot (the dict built in `setup_timeline`),
restricted to the fields the optimization phases read or write. -/
structure Slot where
  price : ℚ
  hour : Nat
  base_net_load_wh : ℚ
  grid_wh : ℚ
  batt_wh : ℚ
deriving Repr, DecidableEq

instance : Inhabited Slot := ⟨⟨0, 0, 0, 0, 0⟩⟩

/-- Recursion of `calculate_battery_profile_from_list`, over the zipped
`(grid_cmd, slot)` pairs (the source indexes `timeline[i]` for the `i`-th
grid command; all callers pass lists of equal length). -/
def profileGo (cfg : Config) : ℚ → List (ℚ × Slot) → List ℚ
  | _, [] => []
  | curr, (g, it) :: rest =>
      let actual := g + cfg.BIAS_WH_PER_QUARTER
      let change := actual - it.base_net_load_wh
      let c1 := curr + change
      let c2 := if c1 > cfg.BATTERY_ENERGY_WH then cfg.BATTERY_ENERGY_WH else c1
      c2 :: profileGo cfg c2 rest

/-- The Battery Profile Simulator (`calculate_battery_profile_from_list`,
lines 267-275): accumulate `(grid + bias) - base_net_load` on the running
charge, clamping only from above at `BATTERY_ENERGY_WH`. -/
def calculate_battery_profile_from_list (cfg : Config) (soc_start : ℚ)
    (grid_cmds : List ℚ) (timeline : List Slot) : List ℚ :=
  profileGo cfg soc_start (grid_cmds.zip timeline)

/-- Python's `max` of a nonempty list. -/
def listMax (p : ℚ) (ps : List ℚ) : ℚ := ps.foldl max p

/-- Hourly usage dictionary `{hour: summed positive (grid+bias)}`; an
association list models the Python dict (insertion order is irrelevant, only
lookups are). -/
abbrev UsageMap := List (Nat × ℚ)

/-- Dict read `u.get(h, 0)`. -/
def usageGetD (u : UsageMap) (h : Nat) : ℚ :=
  ((u.find? (fun p => p.1 == h)).map Prod.snd).getD 0

/-- Dict write `u[h] = v` (insert or overwrite). -/
def usageUpsert (u : UsageMap) (h : Nat) (v : ℚ) : UsageMap :=
  if (u.find? (fun p => p.1 == h)).isSome then
    u.map (fun p => if p.1 == h then (p.1, v) else p)
  else u ++ [(h, v)]

/-- Dict update `u[h] += dv`, which raises `KeyError` when `h` is absent. -/
def usageAddExisting (u : UsageMap) (h : Nat) (dv : ℚ) : Except String UsageMap :=
  if (u.find? (fun p => p.1 == h)).isSome then
    .ok (u.map (fun p => if p.1 == h then (p.1, p.2 + dv) else p))
  else .error "KeyError"

/-- The helper `get_hourly_usage_map` (lines 277-282). -/
def get_hourly_usage_map (cfg : Config) (timeline : List Slot) : UsageMap :=
  timeline.foldl
    (fun u x =>
      let g := x.grid_wh + cfg.BIAS_WH_PER_QUARTER
      if g > 0 then usageUpsert u x.hour (usageGetD u x.hour + g) else u)
    []

/-- The inner `check_capacity` of `phase_smart_fill_cheap_hours`
(lines 396-399).  `none` models the `ValueError` Python's `max` raises on an
empty profile (never reached: the check runs only after a tentative increase
to an existing slot). -/
def check_capacity (cfg : Config) (current_battery_wh : ℚ)
    (timeline : List Slot) : Option Bool :=
  match calculate_battery_profile_from_list cfg current_battery_wh
      (timeline.map (·.grid_wh)) timeline with
  | [] => none
  | p :: ps => some (decide (listMax p ps ≤ cfg.BATTERY_ENERGY_WH))

/-- Body of the candidate loop of `phase_smart_fill_cheap_hours`
(lines 401-417) for the candidate at position `i`. -/
def smartFillStep (cfg : Config) (current_battery_wh limit_wh : ℚ)
    (st : List Slot × UsageMap) (i : Nat) : Except String (List Slot × UsageMap) :=
  let tl := st.1
  let hu := st.2
  let item := tl.getD i default
  let curr_h_sum := usageGetD hu item.hour
  let room_to_peak := limit_wh - curr_h_sum
  if room_to_peak < 1 then .ok st else
  let curr_grid := item.grid_wh + cfg.BIAS_WH_PER_QUARTER
  let net_load := item.base_net_load_wh
  let room_to_load := net_load - curr_grid
  if room_to_load < 1 then .ok st else
  let take := min room_to_peak room_to_load
  let tl' := tl.set i { item with grid_wh := item.grid_wh + take }
  match usageAddExisting hu item.hour take with
  | .error e => .error e
  | .ok hu' =>
      match check_capacity cfg current_battery_wh tl' with
      | none => .error "ValueError"
      | some true => .ok (tl', hu')
      | some false => .ok (tl, hu)

/-- Candidate positions of `phase_smart_fill_cheap_hours`: slots priced
strictly below the day average, in ascending price order (Python's stable
sort on the slot dicts keeps timeline order among equal prices, as
`insertionSort` does on the ascending position list). -/
def cheapCandidates (timeline : List Slot) : List Nat :=
  let avg_p : ℚ :=
    if timeline.length = 0 then 0
    else (timeline.map (·.price)).sum / timeline.length
  List.insertionSort
    (fun a b => (timeline.getD a default).price ≤ (timeline.getD b default).price)
    ((List.range timeline.length).filter
      (fun i => decide ((timeline.getD i default).price < avg_p)))

/-- The candidate loop of `phase_smart_fill_cheap_hours`: fold
`smartFillStep` over the sorted candidates, propagating a raised error. -/
def smartFillGo (cfg : Config) (current_battery_wh limit_wh : ℚ) :
    List Slot × UsageMap → List Nat → Except String (List Slot × UsageMap)
  | st, [] => .ok st
  | st, c :: rest =>
      match smartFillStep cfg current_battery_wh limit_wh st c with
      | .error e => .error e
      | .ok st' => smartFillGo cfg current_battery_wh limit_wh st' rest

/-- The Cheap-Hour Fill Optimizer `phase_smart_fill_cheap_hours`
(lines 386-417). -/
def phase_smart_fill_cheap_hours (cfg : Config) (timeline : List Slot)
    (current_battery_wh limit_wh : ℚ) : Except String (List Slot) :=
  let hu := get_hourly_usage_map cfg timeline
  (smartFillGo cfg current_battery_wh limit_wh (timeline, hu)
    (cheapCandidates timeline)).map Prod.fst

/-- Variant of the candidate-loop body with the capacity re-check and its
rollback branch removed: every tentative increase is kept.  Written to the
words of the spec's claim that the rollback branch is unreachable; compared
against `smartFillStep` in the corresponding theorem. -/
def smartFillStepNoRollback (cfg : Config) (current_battery_wh limit_wh : ℚ)
    (st : List Slot × UsageMap) (i : Nat) : Except String (List Slot × UsageMap) :=
  let tl := st.1
  let hu := st.2
  let item := tl.getD i default
  let curr_h_sum := usageGetD hu item.hour
  let room_to_peak := limit_wh - curr_h_sum
  if room_to_peak < 1 then .ok st else
  let curr_grid := item.grid_wh + cfg.BIAS_WH_PER_QUARTER
  let net_load := item.base_net_load_wh
  let room_to_load := net_load - curr_grid
  if room_to_load < 1 then .ok st else
  let take := min room_to_peak room_to_load
  let tl' := tl.set i { item with grid_wh := item.grid_wh + take }
  match usageAddExisting hu item.hour take with
  | .error e => .error e
  | .ok hu' => .ok (tl', hu')

/-- Candidate loop of the rollback-free variant. -/
def smartFillGoNoRollback (cfg : Config) (current_battery_wh limit_wh : ℚ) :
    List Slot × UsageMap → List Nat → Except String (List Slot × UsageMap)
  | st, [] => .ok st
  | st, c :: rest =>
      match smartFillStepNoRollback cfg current_battery_wh limit_wh st c with
      | .error e => .error e
      | .ok st' => smartFillGoNoRollback cfg current_battery_wh limit_wh st' rest

/-- Rollback-free variant of the Cheap-Hour Fill Optimizer (spec-side
definition for the refinement statement of the capacity-check claim). -/
def phase_smart_fill_cheap_hoursNoRollback (cfg : Config) (timeline : List Slot)
    (current_battery_wh limit_wh : ℚ) : Except String (List Slot) :=
  let hu := get_hourly_usage_map cfg timeline
  (smartFillGoNoRollback cfg current_battery_wh limit_wh (timeline, hu)
    (cheapCandidates timeline)).map Prod.fst

/-- One bisection step state of `calculate_min_peak_limit` (lines 250-265):
fuel-indexed recursion over `(low, high, best)`. -/
def minPeakGo (cfg : Config) (timeline : List Slot) (available_energy_wh : ℚ) :
    Nat → ℚ → ℚ → ℚ → ℚ
  | 0, _, _, best => best
  | n + 1, low, high, best =>
      let mid := (low + high) / 2
      let possible := timeline.all (fun item =>
        let usable := mid - cfg.BIAS_WH_PER_QUARTER
        let usable := if usable < 0 then 0 else usable
        let needed := item.base_net_load_wh - usable
        let needed := if needed < 0 then 0 else needed
        !decide (needed > cfg.MAX_BATTERY_OUTPUT_PER_QUARTER_WH))
      let total_needed :=
        (timeline.map (fun x =>
          max 0 (x.base_net_load_wh - (mid - cfg.BIAS_WH_PER_QUARTER)))).sum
      if possible && decide (total_needed ≤ available_energy_wh) then
        minPeakGo cfg timeline available_energy_wh n low mid mid
      else
        minPeakGo cfg timeline available_energy_wh n mid high best

/-- The 20-iteration feasibility bisection `calculate_min_peak_limit`. -/
def calculate_min_peak_limit (cfg : Config) (timeline : List Slot)
    (available_energy_wh : ℚ) : ℚ :=
  minPeakGo cfg timeline available_energy_wh 20 0 10000 10000

/-- The slot discharge computed by `phase_1_peak_shaving`'s loop body
(lines 353-358): hold import at the ceiling, clamp at zero, at the per-slot
rate limit, and finally at the charge remaining above the reserve. -/
def phase1Dis (cfg : Config) (optimal curr_soc : ℚ) (item : Slot) : ℚ :=
  let use_grid := optimal - cfg.BIAS_WH_PER_QUARTER
  let use_grid := if use_grid < 0 then 0 else use_grid
  let dis := item.base_net_load_wh - use_grid
  let dis := if dis < 0 then 0 else dis
  let dis := if dis > cfg.MAX_BATTERY_OUTPUT_PER_QUARTER_WH then
    cfg.MAX_BATTERY_OUTPUT_PER_QUARTER_WH else dis
  if curr_soc - dis < cfg.MIN_BATTERY_BUFFER_WH then
    max 0 (curr_soc - cfg.MIN_BATTERY_BUFFER_WH) else dis

/-- The per-slot loop of `phase_1_peak_shaving` (lines 351-362), returning the
updated slots and the final tracked charge. -/
def phase1Go (cfg : Config) (optimal : ℚ) : ℚ → List Slot → List Slot × ℚ
  | curr_soc, [] => ([], curr_soc)
  | curr_soc, item :: rest =>
      let dis := phase1Dis cfg optimal curr_soc item
      let soc' := curr_soc - dis
      let item' := { item with
        grid_wh := (item.base_net_load_wh - dis) - cfg.BIAS_WH_PER_QUARTER
        batt_wh := soc' }
      let rec' := phase1Go cfg optimal soc' rest
      (item' :: rec'.1, rec'.2)

/-- Phase 1, `phase_1_peak_shaving` (lines 332-364): returns the updated
timeline, the chosen ceiling `optimal`, and the `warning_flag`. -/
def phase_1_peak_shaving (cfg : Config) (timeline : List Slot)
    (current_battery_wh : ℚ) : List Slot × ℚ × Bool :=
  let usable := current_battery_wh - cfg.MIN_BATTERY_BUFFER_WH
  let usable := if usable < 0 then 0 else usable
  let optimal := match cfg.TRY_KEEP_HOURS_BELOW_WH with
    | some t => t / 4
    | none => calculate_min_peak_limit cfg timeline usable
  let monthly_peak := cfg.PREVIOUS_PEAK_WH / 4
  let warning_flag := decide (optimal > monthly_peak)
  ((phase1Go cfg optimal current_battery_wh timeline).1, optimal, warning_flag)

/-- A candidate record of `distribute_smart_safety_fill.get_candidates`
(the Python dict `{"index", "price", "headroom", "hour"}`). -/
structure Cand where
  idx : Nat
  price : ℚ
  headroom : ℚ
  hour : Nat
deriving Repr, DecidableEq

/-- The `get_candidates` closure of `distribute_smart_safety_fill`
(lines 287-306), evaluated against the current timeline and usage map. -/
def get_candidates (cfg : Config) (timeline : List Slot) (hourly_usage : UsageMap)
    (current_battery_wh : ℚ) (end_index : Nat) (ignore_peak_limit : Bool) : List Cand :=
  let temp_grid := timeline.map (·.grid_wh)
  let base_profile := calculate_battery_profile_from_list cfg current_battery_wh temp_grid timeline
  (List.range (end_index + 1)).filterMap (fun i =>
    let item := timeline.getD i default
    let rel := (base_profile.drop i).take (end_index + 1 - i)
    let max_s := match rel with
      | [] => cfg.BATTERY_ENERGY_WH
      | p :: ps => listMax p ps
    let cap_h := cfg.BATTERY_ENERGY_WH - max_s
    if cap_h ≤ 1 then none
    else if ignore_peak_limit then
      some ⟨i, item.price, min cap_h cfg.MAX_BATTERY_OUTPUT_PER_QUARTER_WH, item.hour⟩
    else
      let peak_h := cfg.PREVIOUS_PEAK_WH - usageGetD hourly_usage item.hour
      if peak_h ≤ 1 then none
      else some ⟨i, item.price, min cap_h peak_h, item.hour⟩)

/-- Pass 1 take-loop of `distribute_smart_safety_fill` (lines 311-317); stops
at the break `rem <= 0`, updates the hourly usage dict (possible `KeyError`). -/
def distribPass1 (cfg : Config) :
    List Slot × UsageMap × ℚ → List Cand → Except String (List Slot × UsageMap × ℚ)
  | st, [] => .ok st
  | (tl, hu, rem), c :: rest =>
      if rem ≤ 0 then .ok (tl, hu, rem) else
      let take := min rem c.headroom
      let tl' := tl.set c.idx
        { tl.getD c.idx default with grid_wh := (tl.getD c.idx default).grid_wh + take }
      match usageAddExisting hu c.hour take with
      | .error e => .error e
      | .ok hu' => distribPass1 cfg (tl', hu', rem - take) rest

/-- Pass 2 (fallback) take-loop of `distribute_smart_safety_fill`
(lines 320-327): no usage-map bookkeeping. -/
def distribPass2 (cfg : Config) :
    List Slot × ℚ → List Cand → List Slot × ℚ
  | st, [] => st
  | (tl, rem), c :: rest =>
      if rem ≤ 0 then (tl, rem) else
      let take := min rem c.headroom
      let tl' := tl.set c.idx
        { tl.getD c.idx default with grid_wh := (tl.getD c.idx default).grid_wh + take }
      distribPass2 cfg (tl', rem - take) rest

/-- The two-pass greedy fill `distribute_smart_safety_fill` (lines 284-330).
Any residual deficit is forced onto the first slot (`IndexError` on an empty
timeline, unreachable from the caller). -/
def distribute_smart_safety_fill (cfg : Config) (timeline : List Slot)
    (needed : ℚ) (end_index : Nat) (current_battery_wh : ℚ) : Except String (List Slot) :=
  let hu := get_hourly_usage_map cfg timeline
  let cands := List.insertionSort (fun a b => a.price ≤ b.price)
    (get_candidates cfg timeline hu current_battery_wh end_index false)
  match distribPass1 cfg (timeline, hu, needed) cands with
  | .error e => .error e
  | .ok (tl1, _hu1, rem1) =>
      if rem1 > 0 then
        let cands2 := List.insertionSort (fun a b => a.price ≤ b.price)
          (get_candidates cfg tl1 hu current_battery_wh end_index true)
        let st2 := distribPass2 cfg (tl1, rem1) cands2
        if st2.2 > 0 then
          match st2.1 with
          | [] => .error "IndexError"
          | t :: ts => .ok ({ t with grid_wh := t.grid_wh + st2.2 } :: ts)
        else .ok st2.1
      else .ok tl1

/-- Violation scan of `phase_2_safety_checks` (lines 374-383): the first slot
whose projected discharge exceeds the low-charge limit while its starting
charge is under the throttle threshold, together with the `needed` lift. -/
def findViolation (cfg : Config) (timeline : List Slot) (current_battery_wh : ℚ) :
    Option (Nat × ℚ) :=
  let temp_grid := timeline.map (·.grid_wh)
  let profile := calculate_battery_profile_from_list cfg current_battery_wh temp_grid timeline
  (List.range timeline.length).findSome? (fun i =>
    let item := timeline.getD i default
    let start_soc := if i = 0 then current_battery_wh else profile.getD (i - 1) 0
    let act_grid := item.grid_wh + cfg.BIAS_WH_PER_QUARTER
    let dis := item.base_net_load_wh - act_grid
    if dis > cfg.LOW_SOC_MAX_OUTPUT_PER_QUARTER_WH then
      if start_soc < cfg.LOW_SOC_THROTTLE_WH then
        some (i, cfg.LOW_SOC_THROTTLE_WH - start_soc + 1)
      else none
    else none)

/-- The bounded repair loop of `phase_2_safety_checks` with `fuel` iterations
remaining out of 10. -/
def phase2Go (cfg : Config) (current_battery_wh : ℚ) :
    Nat → List Slot → Except String (List Slot)
  | 0, tl => .ok tl
  | n + 1, tl =>
      match findViolation cfg tl current_battery_wh with
      | none => .ok tl
      | some (i, needed) =>
          match distribute_smart_safety_fill cfg tl needed i current_battery_wh with
          | .error e => .error e
          | .ok tl' => phase2Go cfg current_battery_wh n tl'

/-- Phase 2, `phase_2_safety_checks` (lines 366-384). -/
def phase_2_safety_checks (cfg : Config) (timeline : List Slot)
    (current_battery_wh : ℚ) : Except String (List Slot) :=
  phase2Go cfg current_battery_wh 10 timeline

/-- Positions of the slots of clock hour `h`
(`[i for i, x in enumerate(timeline) if x["hour"] == hour]`, line 425). -/
def hourIndicesOf (timeline : List Slot) (h : Nat) : List Nat :=
  (List.range timeline.length).filter (fun i => (timeline.getD i default).hour == h)

/-- Hours present in the timeline, ascending (`sorted(list(set(...)))`,
line 421). -/
def unique_hours (timeline : List Slot) : List Nat :=
  List.insertionSort (fun a b => a ≤ b) (timeline.map (·.hour)).dedup

/-- Measurement used by the intra-hour claims: the aggregate grid-import
volume of clock hour `h`, the sum of `grid_wh + bias` over the hour's slots. -/
def hourAgg (cfg : Config) (tl : List Slot) (h : Nat) : ℚ :=
  ((hourIndicesOf tl h).map
    (fun i => (tl.getD i default).grid_wh + cfg.BIAS_WH_PER_QUARTER)).sum

/-- The load-driven absorption capacity of clock hour `h`: the sum of
`max 0 base_net_load_wh` over the hour's slots (what pass 1 of the hour
re-allocation can hand out without the pass-2 spill). -/
def hourCap (tl : List Slot) (h : Nat) : ℚ :=
  ((hourIndicesOf tl h).map
    (fun i => max 0 (tl.getD i default).base_net_load_wh)).sum

/-- Association-list read with default, for the `allocated` dict. -/
def allocGetD (al : List (Nat × ℚ)) (i : Nat) : ℚ :=
  ((al.find? (fun p => p.1 == i)).map Prod.snd).getD 0

/-- Association-list overwrite for the `allocated` dict. -/
def allocSet (al : List (Nat × ℚ)) (i : Nat) (v : ℚ) : List (Nat × ℚ) :=
  al.map (fun p => if p.1 == i then (p.1, v) else p)

/-- Pass 1 of the hour re-allocation (lines 441-445): in ascending price
order, grant each quarter up to its load-driven ceiling `max 0 base`,
consuming the budget sequentially. -/
def hourPass1 : List (Nat × Slot) → ℚ → List (Nat × ℚ) × ℚ
  | [], budget => ([], budget)
  | q :: rest, budget =>
      let max_take := max 0 q.2.base_net_load_wh
      let take := min budget max_take
      let r := hourPass1 rest (budget - take)
      ((q.1, take) :: r.1, r.2)

/-- One quarter's update in pass 2 of the hour re-allocation
(lines 448-455): spill into the charging headroom `base + max rate`. -/
def hourPass2Step (cfg : Config) (al : List (Nat × ℚ)) (rem : ℚ) (q : Nat × Slot) :
    List (Nat × ℚ) × ℚ :=
  let curr_val := allocGetD al q.1
  let max_grid_charge := q.2.base_net_load_wh + cfg.MAX_BATTERY_OUTPUT_PER_QUARTER_WH
  let room := max_grid_charge - curr_val
  if room > 0 then (allocSet al q.1 (curr_val + min rem room), rem - min rem room)
  else (al, rem)

/-- Pass 2 of the hour re-allocation (lines 447-456): spill the remaining
budget into charging headroom, breaking once the budget is exhausted. -/
def hourPass2 (cfg : Config) :
    List (Nat × ℚ) × ℚ → List (Nat × Slot) → List (Nat × ℚ) × ℚ
  | st, [] => st
  | (al, rem), q :: rest =>
      let st' := hourPass2Step cfg al rem q
      if st'.2 ≤ 0 then st' else hourPass2 cfg st' rest

/-- Validation sweep of the tentative hour assignment (lines 461-471): a
running charge estimate checks the discharge-rate, low-charge-throttle and
minimum-reserve constraints for each quarter in chronological order. -/
def hourValidate (cfg : Config) (tl2 : List Slot) (sorted_indices : List Nat)
    (current_soc : ℚ) : ℚ × Bool :=
  sorted_indices.foldl
    (fun acc i =>
      let item := tl2.getD i default
      let act := item.grid_wh + cfg.BIAS_WH_PER_QUARTER
      let dis := item.base_net_load_wh - act
      let v := acc.2 && !decide (dis > cfg.MAX_BATTERY_OUTPUT_PER_QUARTER_WH) &&
        !(decide (acc.1 < cfg.LOW_SOC_THROTTLE_WH) &&
          decide (dis > cfg.LOW_SOC_MAX_OUTPUT_PER_QUARTER_WH)) &&
        !decide (acc.1 - dis < cfg.MIN_BATTERY_BUFFER_WH)
      let ts := acc.1 - dis
      let ts := if ts > cfg.BATTERY_ENERGY_WH then cfg.BATTERY_ENERGY_WH else ts
      (ts, v))
    (current_soc, true)

/-- Charge bookkeeping used by the skip branch (lines 431-434) and by the
rollback branch (lines 477-480): subtract each quarter's discharge computed
from the (restored) grid values, without any capacity clamp. -/
def hourFallthroughSoc (cfg : Config) (tl : List Slot) (indices : List Nat)
    (current_soc : ℚ) : ℚ :=
  indices.foldl
    (fun soc i =>
      let g := (tl.getD i default).grid_wh + cfg.BIAS_WH_PER_QUARTER
      let d := (tl.getD i default).base_net_load_wh - g
      soc - d)
    current_soc

/-- Write one allocated value back into the timeline
(`timeline[i]["grid_wh"] = allocated[i] - BIAS`, line 459). -/
def applyAlloc (cfg : Config) (alloc : List (Nat × ℚ)) (t : List Slot) (i : Nat) :
    List Slot :=
  t.set i { t.getD i default with grid_wh := allocGetD alloc i - cfg.BIAS_WH_PER_QUARTER }

/-- The allocation an hour's re-assignment computes (lines 437-456). -/
def hourAllocOf (cfg : Config) (tl : List Slot) (hour : Nat) : List (Nat × ℚ) :=
  let indices := hourIndicesOf tl hour
  let quarters := indices.map (fun i => (i, tl.getD i default))
  let hour_total_grid :=
    (quarters.map (fun q => q.2.grid_wh + cfg.BIAS_WH_PER_QUARTER)).sum
  let sortedQ := List.insertionSort (fun a b => a.2.price ≤ b.2.price) quarters
  let p1 := hourPass1 sortedQ hour_total_grid
  if p1.2 > 0 then (hourPass2 cfg p1 sortedQ).1 else p1.1

/-- The tentative re-assignment of one hour (lines 437-459): sort the hour's
quarters by price, run the two allocation passes on the hour's aggregate
`grid + bias` budget, and write `allocated[i] - bias` into each slot. -/
def hourTentative (cfg : Config) (tl : List Slot) (hour : Nat) : List Slot :=
  (hourIndicesOf tl hour).foldl (applyAlloc cfg (hourAllocOf cfg tl hour)) tl

/-- One hour's step of `phase_optimize_within_hours` (lines 424-480) on the
state `(timeline, running charge)`. -/
def processHour (cfg : Config) (st : List Slot × ℚ) (hour : Nat) : List Slot × ℚ :=
  let tl := st.1
  let current_soc := st.2
  let indices := hourIndicesOf tl hour
  if indices = [] then st else
  let quarters := indices.map (fun i => (i, tl.getD i default))
  let hour_total_grid :=
    (quarters.map (fun q => q.2.grid_wh + cfg.BIAS_WH_PER_QUARTER)).sum
  if hour_total_grid ≤ 0 then
    (tl, hourFallthroughSoc cfg tl indices current_soc)
  else
  let tl2 := hourTentative cfg tl hour
  let sorted_indices := List.insertionSort (fun a b => a ≤ b) indices
  let val := hourValidate cfg tl2 sorted_indices current_soc
  if val.2 then (tl2, val.1)
  else
    -- restoring `original_grids` puts every slot of the hour back to its
    -- exact pre-pass value, i.e. the hour step returns `tl` itself
    (tl, hourFallthroughSoc cfg tl indices current_soc)

/-- The Intra-Hour Reallocator `phase_optimize_within_hours` (lines 419-480). -/
def phase_optimize_within_hours (cfg : Config) (timeline : List Slot)
    (current_battery_wh : ℚ) : List Slot × ℚ :=
  (unique_hours timeline).foldl (processHour cfg) (timeline, current_battery_wh)

/-- All ordered index pairs scanned by the arbitrage passes, in the source's
nested-loop order (outer `t_c`/`t_b`, inner `t_e`/`t_s`). -/
def scanPairs (n : Nat) : List (Nat × Nat) :=
  (List.range n).flatMap (fun c => (List.range n).map (fun e => (c, e)))

/-- Feasibility filter of one `(t_c, t_e)` pair in the swap scan of
`phase_3_price_optimization` (lines 497-518), against the pre-swap profile. -/
def swapQualifies (cfg : Config) (timeline : List Slot) (curr_prof : List ℚ)
    (current_battery_wh swap_ceiling_wh : ℚ) (c e : Nat) : Bool :=
  let item_c := timeline.getD c default
  let act_c := item_c.grid_wh + cfg.BIAS_WH_PER_QUARTER
  let dis_c := item_c.base_net_load_wh - act_c
  let item_e := timeline.getD e default
  let p_diff := item_e.price - item_c.price
  let act_e := item_e.grid_wh + cfg.BIAS_WH_PER_QUARTER
  let dis_e := item_e.base_net_load_wh - act_e
  let start_soc_e := if e = 0 then current_battery_wh else curr_prof.getD (e - 1) 0
  !decide (c = e) && !decide (dis_c ≤ 0) && !decide (act_c ≥ swap_ceiling_wh) &&
  !decide (p_diff < cfg.BATTERY_CYCLE_COST_ORE) &&
  !decide (dis_e ≥ cfg.MAX_BATTERY_OUTPUT_PER_QUARTER_WH) &&
  !(decide (start_soc_e < cfg.LOW_SOC_THROTTLE_WH) &&
    decide (dis_e ≥ cfg.LOW_SOC_MAX_OUTPUT_PER_QUARTER_WH)) &&
  !decide (c > e) &&
  ((List.range' c (e - c)).all (fun k =>
    !decide (curr_prof.getD k 0 ≥ cfg.BATTERY_ENERGY_WH - 1)))

/-- Price spread `item_e.price - item_c.price` of a scanned pair. -/
def swapSpread (timeline : List Slot) (c e : Nat) : ℚ :=
  (timeline.getD e default).price - (timeline.getD c default).price

/-- One comparison step of the swap scan: keep the pair when it is feasible
and strictly beats the current `max_spread`. -/
def swapFoldStep (cfg : Config) (timeline : List Slot) (curr_prof : List ℚ)
    (current_battery_wh swap_ceiling_wh : ℚ)
    (acc : Option (Nat × Nat) × ℚ) (p : Nat × Nat) : Option (Nat × Nat) × ℚ :=
  if swapQualifies cfg timeline curr_prof current_battery_wh swap_ceiling_wh p.1 p.2
      && decide (swapSpread timeline p.1 p.2 > acc.2) then
    (some p, swapSpread timeline p.1 p.2)
  else acc

/-- One full scan of the swap pass: the best feasible pair and its spread
(`best_swap`, `max_spread`), taking the first maximum as the source's strict
`>` comparison does. -/
def findBestSwap (cfg : Config) (timeline : List Slot)
    (current_battery_wh swap_ceiling_wh : ℚ) : Option (Nat × Nat) × ℚ :=
  let temp_grid := timeline.map (·.grid_wh)
  let curr_prof := calculate_battery_profile_from_list cfg current_battery_wh temp_grid timeline
  (scanPairs timeline.length).foldl
    (swapFoldStep cfg timeline curr_prof current_battery_wh swap_ceiling_wh)
    (none, 0)

/-- Apply an accepted swap (line 524): move 50 Wh of import from the earlier
slot `s` onto the later slot `d`. -/
def applySwap (timeline : List Slot) (s d : Nat) : List Slot :=
  let tlA := timeline.set s
    { timeline.getD s default with grid_wh := (timeline.getD s default).grid_wh + 50 }
  tlA.set d { tlA.getD d default with grid_wh := (tlA.getD d default).grid_wh - 50 }

/-- The bounded swap loop of `phase_3_price_optimization` (lines 490-524);
returns the timeline and the number of iterations executed. -/
def phase3Loop (cfg : Config) (current_battery_wh swap_ceiling_wh : ℚ) :
    Nat → List Slot → List Slot × Nat
  | 0, tl => (tl, 0)
  | n + 1, tl =>
      match findBestSwap cfg tl current_battery_wh swap_ceiling_wh with
      | (none, _) => (tl, 1)
      | (some (s, d), _) =>
          let r := phase3Loop cfg current_battery_wh swap_ceiling_wh n (applySwap tl s d)
          (r.1, r.2 + 1)

/-- Phase 3, `phase_3_price_optimization` (lines 482-524): lift the ceiling to
the current maximum import if needed, then run the bounded swap loop. -/
def phase_3_price_optimization (cfg : Config) (timeline : List Slot)
    (current_battery_wh swap_ceiling_wh : ℚ) : List Slot × Nat :=
  let curr_max := timeline.foldl
    (fun m x =>
      let g := x.grid_wh + cfg.BIAS_WH_PER_QUARTER
      if g > m then g else m)
    0
  let ceiling := if curr_max > swap_ceiling_wh then curr_max else swap_ceiling_wh
  phase3Loop cfg current_battery_wh ceiling 500 timeline

/-- Feasibility filter of one `(t_b, t_s)` pair in the active-arbitrage scan
of `phase_4_active_arbitrage` (lines 537-560). -/
def arbQualifies (cfg : Config) (timeline : List Slot) (curr_prof : List ℚ)
    (hourly_usage : UsageMap) (current_battery_wh : ℚ) (b s : Nat) : Bool :=
  let item_b := timeline.getD b default
  let curr_h := usageGetD hourly_usage item_b.hour
  let start_soc_b := if b = 0 then current_battery_wh else curr_prof.getD (b - 1) 0
  let item_s := timeline.getD s default
  let buy_c := item_b.price + cfg.TOTAL_ADDITIONAL_FEES
  let sell_r := item_s.price
  let profit := sell_r - buy_c - cfg.BATTERY_CYCLE_COST_ORE
  let act_s := item_s.grid_wh + cfg.BIAS_WH_PER_QUARTER
  let dis_s := item_s.base_net_load_wh - act_s
  let start_soc_s := curr_prof.getD (s - 1) 0
  !decide (cfg.PREVIOUS_PEAK_WH - curr_h < 50) &&
  !decide (start_soc_b ≥ cfg.BATTERY_ENERGY_WH - 1) &&
  !decide (b ≥ s) &&
  !decide (profit < cfg.MIN_PRICE_DIFF_ORE_FOR_SELLING) &&
  !decide (dis_s + 50 > cfg.MAX_BATTERY_OUTPUT_PER_QUARTER_WH) &&
  !(decide (start_soc_s < cfg.LOW_SOC_THROTTLE_WH) &&
    decide (dis_s + 50 > cfg.LOW_SOC_MAX_OUTPUT_PER_QUARTER_WH)) &&
  ((List.range' b (s - b)).all (fun k =>
    !decide (curr_prof.getD k 0 + 50 > cfg.BATTERY_ENERGY_WH)))

/-- Projected profit of a scanned buy/sell pair
(`sell_r - buy_c - BATTERY_CYCLE_COST_ORE`, line 547). -/
def arbProfit (cfg : Config) (timeline : List Slot) (b s : Nat) : ℚ :=
  (timeline.getD s default).price -
    ((timeline.getD b default).price + cfg.TOTAL_ADDITIONAL_FEES) -
    cfg.BATTERY_CYCLE_COST_ORE

/-- The pair scan loop of `phase_4_active_arbitrage` over the state
`(max_prof, best_arb)`: reaching the accept branch executes `max_prof = prof`
(line 562) where `prof` is an undefined name, so the scan raises `NameError`
on the first feasible pair whose profit beats `max_prof` (which therefore
never leaves its initial value 0). -/
def findArbGo (cfg : Config) (timeline : List Slot) (curr_prof : List ℚ)
    (hourly_usage : UsageMap) (current_battery_wh : ℚ) :
    ℚ × Option (Nat × Nat) → List (Nat × Nat) → Except String (ℚ × Option (Nat × Nat))
  | st, [] => .ok st
  | st, p :: rest =>
      if arbQualifies cfg timeline curr_prof hourly_usage current_battery_wh p.1 p.2
          && decide (arbProfit cfg timeline p.1 p.2 > st.1) then
        .error "NameError: name 'prof' is not defined"
      else findArbGo cfg timeline curr_prof hourly_usage current_battery_wh st rest

/-- One full scan of the active-arbitrage pass. -/
def findArb (cfg : Config) (timeline : List Slot) (hourly_usage : UsageMap)
    (current_battery_wh : ℚ) : Except String (Option (Nat × Nat)) :=
  let temp_grid := timeline.map (·.grid_wh)
  let curr_prof := calculate_battery_profile_from_list cfg current_battery_wh temp_grid timeline
  (findArbGo cfg timeline curr_prof hourly_usage current_battery_wh
    ((0 : ℚ), (none : Option (Nat × Nat))) (scanPairs timeline.length)).map Prod.snd

/-- The bounded loop of `phase_4_active_arbitrage` (lines 530-567).  The
accept branch (lines 564-567) is kept for structure but is dead in practice:
`findArb` can only return `ok none` or raise. -/
def phase4Loop (cfg : Config) (current_battery_wh : ℚ) :
    Nat → List Slot × UsageMap → Except String (List Slot × UsageMap × Nat)
  | 0, st => .ok (st.1, st.2, 0)
  | n + 1, (tl, hu) =>
      match findArb cfg tl hu current_battery_wh with
      | .error e => .error e
      | .ok none => .ok (tl, hu, 1)
      | .ok (some (b, s)) =>
          let tl' := applySwap tl b s
          match usageAddExisting hu (tl.getD b default).hour 50 with
          | .error e => .error e
          | .ok hu' =>
              match phase4Loop cfg current_battery_wh n (tl', hu') with
              | .error e => .error e
              | .ok (tlF, huF, used) => .ok (tlF, huF, used + 1)

/-- Phase 4, `phase_4_active_arbitrage` (lines 526-567).  The `base_price`
argument is unused, exactly as in the source. -/
def phase_4_active_arbitrage (cfg : Config) (timeline : List Slot)
    (current_battery_wh base_price : ℚ) : Except String (List Slot) :=
  match phase4Loop cfg current_battery_wh 500
      (timeline, get_hourly_usage_map cfg timeline) with
  | .error e => .error e
  | .ok (tl, _, _) => .ok tl

/-- The phase sequence of `run_optimizer` (lines 748-770) on a nonempty
timeline: phases 1, 2, smart fill (ceiling `PREVIOUS_PEAK_WH`), intra-hour,
and, when arbitrage is enabled, phases 3 and 4 with the swap ceiling chosen
from the warning flag. -/
def run_phases (cfg : Config) (timeline : List Slot)
    (current_battery_wh base_price : ℚ) : Except String (List Slot) :=
  let p1 := phase_1_peak_shaving cfg timeline current_battery_wh
  match phase_2_safety_checks cfg p1.1 current_battery_wh with
  | .error e => .error e
  | .ok tl2 =>
      match phase_smart_fill_cheap_hours cfg tl2 current_battery_wh cfg.PREVIOUS_PEAK_WH with
      | .error e => .error e
      | .ok tl3 =>
          let tl4 := (phase_optimize_within_hours cfg tl3 current_battery_wh).1
          if cfg.ENABLE_ARBITRAGE then
            let monthly_peak_wh := cfg.PREVIOUS_PEAK_WH / 4
            let swap_ceiling_wh := if p1.2.2 then p1.2.1 else monthly_peak_wh
            let tl5 := (phase_3_price_optimization cfg tl4 current_battery_wh swap_ceiling_wh).1
            phase_4_active_arbitrage cfg tl5 current_battery_wh base_price
          else .ok tl4

/-- Result shape of `run_optimizer`: the final timeline (detailed-report mode)
or the snapshot history (animation mode). -/
inductive RunResult where
  | tl : Option (List Slot) → RunResult
  | hist : List (String × List Slot) → RunResult
deriving Repr, DecidableEq

/-- Snapshot capture of `run_optimizer.save_snapshot` (lines 723-737): the
timeline with `batt_wh` refreshed from a simulator replay. -/
def snapshotOf (cfg : Config) (name : String) (timeline : List Slot)
    (current_battery_wh : ℚ) : String × List Slot :=
  let prof := calculate_battery_profile_from_list cfg current_battery_wh
    (timeline.map (·.grid_wh)) timeline
  (name, (List.range timeline.length).map
    (fun i => { timeline.getD i default with batt_wh := prof.getD i 0 }))

/-- Append a snapshot when history mode is on (`save_snapshot`). -/
def saveSnapshot (cfg : Config) (return_history : Bool)
    (history : List (String × List Slot)) (name : String) (timeline : List Slot)
    (current_battery_wh : ℚ) : List (String × List Slot) :=
  if return_history then history ++ [snapshotOf cfg name timeline current_battery_wh]
  else history

/-- The controller `run_optimizer` (lines 715-783).  `setup` stands for the
externally produced `setup_timeline()` triple (`none` models the `None`
returned when no price data is available); `return_history` selects the
animation mode.  On a missing or empty timeline the controller returns before
any phase runs (line 717).  Snapshots drop the `battery_wh` / `peak_limit`
copies of the inputs; `generate_reports` is modelled only by its single
mutation of the timeline (writing the replayed profile into `batt_wh`). -/
def run_optimizer (cfg : Config) (setup : Option (List Slot × ℚ × ℚ))
    (return_history : Bool) : Except String RunResult :=
  match setup with
  | none => .ok (if return_history then .hist [] else .tl none)
  | some (timeline, current_battery_wh, base_price) =>
      if timeline = [] then .ok (if return_history then .hist [] else .tl none)
      else
        -- Fas 0: grid temporarily set to the no-battery baseline, then restored
        let snap0tl := timeline.map
          (fun x => { x with grid_wh := x.base_net_load_wh - cfg.BIAS_WH_PER_QUARTER })
        let h0 := saveSnapshot cfg return_history []
          "Fas 0: Utgangslage (Ingen batteridrift)" snap0tl current_battery_wh
        let p1 := phase_1_peak_shaving cfg timeline current_battery_wh
        let h1 := saveSnapshot cfg return_history h0
          "Fas 1: Peak Shaving (Platt Kurva)" p1.1 current_battery_wh
        match phase_2_safety_checks cfg p1.1 current_battery_wh with
        | .error e => .error e
        | .ok tl2 =>
            let h2 := saveSnapshot cfg return_history h1
              "Fas 2: Sakerhetskontroll (15% Reserv)" tl2 current_battery_wh
            match phase_smart_fill_cheap_hours cfg tl2 current_battery_wh
                cfg.PREVIOUS_PEAK_WH with
            | .error e => .error e
            | .ok tl3 =>
                let h29 := saveSnapshot cfg return_history h2
                  "Fas 2.9: Smart Fill (Billiga Timmar)" tl3 current_battery_wh
                let tl4 := (phase_optimize_within_hours cfg tl3 current_battery_wh).1
                let h25 := saveSnapshot cfg return_history h29
                  "Fas 2.5: Intra-Hour (Kvart-optimering)" tl4 current_battery_wh
                let next : Except String (List Slot × List (String × List Slot)) :=
                  if cfg.ENABLE_ARBITRAGE then
                    let monthly_peak_wh := cfg.PREVIOUS_PEAK_WH / 4
                    let swap_ceiling_wh := if p1.2.2 then p1.2.1 else monthly_peak_wh
                    let tl5 := (phase_3_price_optimization cfg tl4
                      current_battery_wh swap_ceiling_wh).1
                    match phase_4_active_arbitrage cfg tl5 current_battery_wh base_price with
                    | .error e => .error e
                    | .ok tl6 => .ok (tl6, saveSnapshot cfg return_history h25
                        "Fas 3 & 4: Arbitrage & Swap" tl6 current_battery_wh)
                  else .ok (tl4, h25)
                match next with
                | .error e => .error e
                | .ok (tlF, hF) =>
                    if return_history then
                      .ok (.hist (saveSnapshot cfg return_history hF
                        "Slutresultat" tlF current_battery_wh))
                    else
                      -- generate_reports: item["batt_wh"] = final profile
                      .ok (.tl (some (snapshotOf cfg "" tlF current_battery_wh).2))

/-- Keys of an association list (used for the `allocated` dict). -/
def alKeys (al : List (Nat × ℚ)) : List Nat := al.map Prod.fst

/-- Sum of the values of an association list. -/
def alSum (al : List (Nat × ℚ)) : ℚ := (al.map Prod.snd).sum

/-- Relation used in the intra-hour development: `tlB` has the same length as
`tlA` and identical `hour`, `base_net_load_wh` and `price` fields (the phase
only rewrites `grid_wh`). -/
def ShapeEq (tlA tlB : List Slot) : Prop :=
  tlB.length = tlA.length ∧
  ∀ i, i < tlA.length →
    (tlB.getD i default).hour = (tlA.getD i default).hour ∧
    (tlB.getD i default).base_net_load_wh = (tlA.getD i default).base_net_load_wh ∧
    (tlB.getD i default).price = (tlA.getD i default).price

/-- Relation used in the reserve-invariant development: `tlB` has the same
shape as `tlA` with pointwise at-least-as-large `grid_wh` and identical
`base_net_load_wh` (phase 2 only ever adds grid import to slots). -/
def SlotsGE (tlA tlB : List Slot) : Prop :=
  tlB.length = tlA.length ∧
  ∀ i, i < tlA.length →
    (tlA.getD i default).grid_wh ≤ (tlB.getD i default).grid_wh ∧
    (tlB.getD i default).base_net_load_wh = (tlA.getD i default).base_net_load_wh

/-- Loop invariant of the cheap-hour fill candidate loop against the phase's
input `tl`: the timeline keeps its length and its `hour`, `price` and
`base_net_load_wh` fields, `grid_wh` only grows, and the tracked hourly-usage
dict agrees with the aggregate `grid_wh + bias` of each hour of the current
timeline. -/
def SmartInv (cfg : Config) (tl : List Slot) (st : List Slot × UsageMap) : Prop :=
  st.1.length = tl.length ∧
  (∀ j, j < tl.length →
    (st.1.getD j default).hour = (tl.getD j default).hour ∧
    (st.1.getD j default).price = (tl.getD j default).price ∧
    (st.1.getD j default).base_net_load_wh = (tl.getD j default).base_net_load_wh ∧
    (tl.getD j default).grid_wh ≤ (st.1.getD j default).grid_wh) ∧
  (∀ h, usageGetD st.2 h = hourAgg cfg st.1 h)

/-- Skip certificate for candidate `c` of the cheap-hour fill loop at state
`st`: its peak headroom `limit - usage` or its load headroom
`base - (grid + bias)` is below the 1 Wh threshold, so the loop body leaves
the state untouched. -/
def SkipAt (cfg : Config) (limit : ℚ) (st : List Slot × UsageMap) (c : Nat) : Prop :=
  limit - usageGetD st.2 (st.1.getD c default).hour < 1 ∨
  (st.1.getD c default).base_net_load_wh -
    ((st.1.getD c default).grid_wh + cfg.BIAS_WH_PER_QUARTER) < 1

/-! ### Concrete instances used by counterexamples, code-bug exhibits and
witnesses.  `Config` fields, in order: capacity, bias, max output/quarter,
low-SoC threshold, low-SoC max output/quarter, min reserve, previous peak,
additional fees, cycle cost, min profitable diff, manual import limit,
arbitrage flag. -/

/-- Configuration of the reserve-invariant counterexample: 1000 Wh battery,
100 Wh reserve, manual import limit 160 Wh/h, cycling cost 50 öre, previous
hourly peak 40 Wh, arbitrage enabled with a prohibitive selling threshold. -/
def cfg_res : Config := ⟨1000, 0, 1000, 50, 500, 100, 40, 0, 50, 1000000, some 160, true⟩

/-- Four-slot timeline (one slot per clock hour) of the reserve-invariant
counterexample. -/
def tl_res : List Slot :=
  [⟨0, 0, 50, 0, 0⟩, ⟨0, 1, 30, 0, 0⟩, ⟨100, 2, 900, 0, 0⟩, ⟨100, 3, 1100, 0, 0⟩]

/-- Final timeline the full phase pipeline produces on `tl_res` from a
starting charge of 995 Wh. -/
def tl_res_final : List Slot :=
  [⟨0, 0, 50, 90, 985⟩, ⟨0, 1, 30, 30, 985⟩, ⟨100, 2, 900, -10, 125⟩,
   ⟨100, 3, 1100, 1075, 100⟩]

/-- Configuration for the `phase_4_active_arbitrage` crash exhibit. -/
def cfg_arb : Config := ⟨1000, 0, 1000, 50, 500, 100, 1000, 0, 0, 10, none, true⟩

/-- Two-slot timeline holding one feasible buy/sell pair (buy at price 0 in
hour 0, sell at price 100 in hour 1). -/
def tl_arb : List Slot := [⟨0, 0, 0, 0, 0⟩, ⟨100, 1, 0, 0, 0⟩]

/-- Configuration of the intra-hour aggregate counterexample: max output
100 Wh/quarter, no reserve, no throttle. -/
def cfg_hour : Config := ⟨1000, 0, 100, 0, 100, 0, 1000, 0, 0, 10, none, true⟩

/-- One-slot timeline whose single hour carries more import (500 Wh) than the
hour can absorb at maximum charge rate (0 + 100 Wh). -/
def tl_hour : List Slot := [⟨10, 0, 0, 500, 0⟩]

/-- One-slot timeline whose single hour imports 500 Wh against a 600 Wh
load-driven absorption capacity: the hour re-allocation hands the whole
budget out in pass 1 and the aggregate import is preserved. -/
def tl_hw : List Slot := [⟨10, 0, 600, 500, 0⟩]

/-- Configuration of the intra-hour rollback witness: reserve 50 Wh. -/
def cfg_rb : Config := ⟨1000, 0, 1000, 0, 1000, 50, 1000, 0, 0, 10, none, true⟩

/-- One-slot timeline whose validation fails from a starting charge of 0
(running estimate below the 50 Wh reserve). -/
def tl_rb : List Slot := [⟨5, 0, 100, 100, 0⟩]

/-- Configuration of the swap-engine zero-increment counterexample: cycling
cost 100 öre. -/
def cfg_swap : Config := ⟨1000, 0, 1000, 0, 500, 0, 1000, 0, 100, 10, none, true⟩

/-- Two-slot timeline whose only feasible swap pair has price spread exactly
equal to the cycling cost. -/
def tl_swap : List Slot := [⟨0, 0, 100, 50, 0⟩, ⟨100, 1, 0, 0, 0⟩]

/-- Configuration of the cheap-hour fill idempotence counterexample. -/
def cfg_fill : Config := ⟨1000000, 0, 1000, 0, 1000, 0, 1000, 0, 0, 10, none, true⟩

/-- Two-slot timeline (same hour) where the cheap slot starts with a negative
`grid_wh + bias`: the tracked hourly usage then over-counts the recomputed
one, so a second pass takes more. -/
def tl_fill : List Slot := [⟨1, 0, 1000, -100, 0⟩, ⟨100, 0, 50, 50, 0⟩]

/-- Output of the first cheap-hour fill pass on `tl_fill` (limit 200). -/
def tl_fill1 : List Slot := [⟨1, 0, 1000, 50, 0⟩, ⟨100, 0, 50, 50, 0⟩]

/-- Output of the second cheap-hour fill pass on `tl_fill1` (limit 200). -/
def tl_fill2 : List Slot := [⟨1, 0, 1000, 150, 0⟩, ⟨100, 0, 50, 50, 0⟩]

/-! ### Helper lemmas -/

lemma upperClamp_eq_min (c x : ℚ) : (if x > c then c else x) = min c x := by
  rcases lt_or_le c x with h | h
  · simp [h, min_eq_left h.le]
  · simp [not_lt.mpr h, min_eq_right h]

lemma profileGo_length (cfg : Config) :
    ∀ (pairs : List (ℚ × Slot)) (curr : ℚ), (profileGo cfg curr pairs).length = pairs.length
  | [], _ => rfl
  | (g, it) :: rest, curr => by
      simp only [profileGo, List.length_cons]
      rw [profileGo_length cfg rest]

lemma profileGo_getD (cfg : Config) :
    ∀ (pairs : List (ℚ × Slot)) (curr : ℚ) (i : Nat), i < pairs.length →
      (profileGo cfg curr pairs).getD i 0 =
        min cfg.BATTERY_ENERGY_WH
          ((if i = 0 then curr else (profileGo cfg curr pairs).getD (i - 1) 0) +
            ((pairs.getD i (0, default)).1 + cfg.BIAS_WH_PER_QUARTER) -
            (pairs.getD i (0, default)).2.base_net_load_wh)
  | [], _, i, hi => absurd hi (by simp)
  | (g, it) :: rest, curr, 0, _ => by
      simp only [profileGo, List.getD_cons_zero, if_true]
      rw [upperClamp_eq_min]
      congr 1
      ring
  | (g, it) :: rest, curr, i + 1, hi => by
      have hi' : i < rest.length := by simpa using Nat.lt_of_succ_lt_succ hi
      have ih := profileGo_getD cfg rest
        (if curr + (g + cfg.BIAS_WH_PER_QUARTER - it.base_net_load_wh) > cfg.BATTERY_ENERGY_WH
         then cfg.BATTERY_ENERGY_WH
         else curr + (g + cfg.BIAS_WH_PER_QUARTER - it.base_net_load_wh)) i hi'
      cases i with
      | zero => simpa [profileGo] using ih
      | succ j => simpa [profileGo] using ih

lemma getD_eq_getElem {α : Type} [Inhabited α] (l : List α) (i : Nat) (d : α)
    (h : i < l.length) : l.getD i d = l[i] := by
  rw [List.getD_eq_getElem?_getD, List.getElem?_eq_getElem h]
  rfl

lemma zip_getD (grid_cmds : List ℚ) (timeline : List Slot)
    (i : Nat) (hi : i < grid_cmds.length) (hi' : i < timeline.length) :
    (grid_cmds.zip timeline).getD i (0, default) =
      (grid_cmds.getD i 0, timeline.getD i default) := by
  have hz : i < (grid_cmds.zip timeline).length := by
    simpa [List.length_zip] using lt_min hi hi'
  rw [getD_eq_getElem _ _ _ hz, getD_eq_getElem _ _ _ hi, getD_eq_getElem _ _ _ hi',
    List.getElem_zip]

/-! ### Claim C1 -/

/-- Claim C1: the Battery Profile Simulator satisfies the recurrence
`battery_after[i] = min(capacity, battery_after[i-1] + (grid_delta[i]+bias) −
base_net_load[i])`, seeded with the starting charge; only the upper clamp at
capacity is applied, and the output can be negative (no lower clamp), as the
final conjunct witnesses on a concrete input. -/
theorem claim_C1 (cfg : Config) (soc_start : ℚ) (grid_cmds : List ℚ)
    (timeline : List Slot) (hlen : grid_cmds.length = timeline.length)
    (i : Nat) (hi : i < grid_cmds.length) :
    (calculate_battery_profile_from_list cfg soc_start grid_cmds timeline).getD i 0 =
      min cfg.BATTERY_ENERGY_WH
        ((if i = 0 then soc_start
          else (calculate_battery_profile_from_list cfg soc_start grid_cmds timeline).getD
            (i - 1) 0) +
          (grid_cmds.getD i 0 + cfg.BIAS_WH_PER_QUARTER) -
          (timeline.getD i default).base_net_load_wh) ∧
    ∃ (cfg' : Config) (soc' g' : ℚ) (tl' : List Slot),
      (calculate_battery_profile_from_list cfg' soc' [g'] tl').getD 0 0 < 0 := by
  constructor
  · have hi' : i < timeline.length := hlen ▸ hi
    have hz : i < (grid_cmds.zip timeline).length := by
      simpa [List.length_zip] using lt_min hi hi'
    have := profileGo_getD cfg (grid_cmds.zip timeline) soc_start i hz
    rw [zip_getD grid_cmds timeline i hi hi'] at this
    simpa [calculate_battery_profile_from_list] using this
  · exact ⟨⟨100, 0, 0, 0, 0, 0, 0, 0, 0, 0, none, false⟩, 0, -100,
      [⟨0, 0, 0, 0, 0⟩], by norm_num [calculate_battery_profile_from_list, profileGo]⟩

/-- Witness for C1 at a concrete input: a two-slot timeline with the
hypotheses discharged. -/
theorem claim_C1_witness :
    ([(40 : ℚ), 30] : List ℚ).length = ([⟨0, 0, 50, 0, 0⟩, ⟨0, 1, 30, 0, 0⟩] : List Slot).length ∧
    (1 : Nat) < ([(40 : ℚ), 30] : List ℚ).length ∧
    ((calculate_battery_profile_from_list ⟨1000, 0, 1000, 50, 500, 100, 40, 0, 50, 10, none, true⟩
        995 [40, 30] [⟨0, 0, 50, 0, 0⟩, ⟨0, 1, 30, 0, 0⟩]).getD 1 0 =
      min (1000 : ℚ)
        ((calculate_battery_profile_from_list ⟨1000, 0, 1000, 50, 500, 100, 40, 0, 50, 10, none, true⟩
            995 [40, 30] [⟨0, 0, 50, 0, 0⟩, ⟨0, 1, 30, 0, 0⟩]).getD 0 0 + (30 + 0) - 30)) :=
  ⟨rfl, by norm_num,
    by simpa using (claim_C1 ⟨1000, 0, 1000, 50, 500, 100, 40, 0, 50, 10, none, true⟩
      995 [40, 30] [⟨0, 0, 50, 0, 0⟩, ⟨0, 1, 30, 0, 0⟩] rfl 1 (by norm_num)).1⟩

/-! ### Claim C9 -/

lemma profileGo_mem_le_cap (cfg : Config) :
    ∀ (pairs : List (ℚ × Slot)) (curr x : ℚ), x ∈ profileGo cfg curr pairs →
      x ≤ cfg.BATTERY_ENERGY_WH
  | [], _, _, hx => absurd hx (by simp [profileGo])
  | (g, it) :: rest, curr, x, hx => by
      simp only [profileGo, List.mem_cons] at hx
      rcases hx with hx | hx
      · subst hx
        split
        · exact le_rfl
        · exact not_lt.mp (by assumption)
      · exact profileGo_mem_le_cap cfg rest _ x hx

lemma listMax_le_of_forall {c p : ℚ} {ps : List ℚ} (hp : p ≤ c) (hps : ∀ x ∈ ps, x ≤ c) :
    listMax p ps ≤ c := by
  unfold listMax
  induction ps generalizing p with
  | nil => exact hp
  | cons a ps ih =>
      have : max p a ≤ c := max_le hp (hps a (by simp))
      exact ih this (fun x hx => hps x (by simp [hx]))

lemma profile_length (cfg : Config) (soc : ℚ) (tl : List Slot) :
    (calculate_battery_profile_from_list cfg soc (tl.map (·.grid_wh)) tl).length =
      tl.length := by
  simp [calculate_battery_profile_from_list, profileGo_length, List.length_zip]

lemma check_capacity_some_true (cfg : Config) (soc : ℚ) (tl : List Slot)
    (h : tl ≠ []) : check_capacity cfg soc tl = some true := by
  unfold check_capacity
  cases hm : calculate_battery_profile_from_list cfg soc (tl.map (·.grid_wh)) tl with
  | nil =>
      have h0 : tl.length = 0 := by rw [← profile_length cfg soc tl, hm]; rfl
      exact absurd (List.length_eq_zero.mp h0) h
  | cons p ps =>
      have hm' : profileGo cfg soc ((tl.map (·.grid_wh)).zip tl) = p :: ps := hm
      have hp : p ≤ cfg.BATTERY_ENERGY_WH :=
        profileGo_mem_le_cap cfg _ _ _ (by rw [hm']; exact List.mem_cons_self p ps)
      have hps : ∀ x ∈ ps, x ≤ cfg.BATTERY_ENERGY_WH := fun x hx =>
        profileGo_mem_le_cap cfg _ _ _ (by rw [hm']; exact List.mem_cons_of_mem p hx)
      simp [listMax_le_of_forall hp hps]

lemma smartFillStep_eq_noRollback (cfg : Config) (soc limit : ℚ)
    (st : List Slot × UsageMap) (i : Nat) (h : st.1 ≠ []) :
    smartFillStep cfg soc limit st i = smartFillStepNoRollback cfg soc limit st i := by
  unfold smartFillStep smartFillStepNoRollback
  dsimp only
  split
  · rfl
  · split
    · rfl
    · split
      · rfl
      · rename_i hu' _
        have hne : st.1.set i
            { st.1.getD i default with
              grid_wh := (st.1.getD i default).grid_wh +
                min (limit - usageGetD st.2 (st.1.getD i default).hour)
                  ((st.1.getD i default).base_net_load_wh -
                    ((st.1.getD i default).grid_wh + cfg.BIAS_WH_PER_QUARTER)) } ≠ [] := by
          intro hc
          exact h (List.eq_nil_of_length_eq_zero (by
            simpa [List.length_set] using congrArg List.length hc))
        rw [check_capacity_some_true cfg soc _ hne]

lemma smartFillStepNoRollback_length (cfg : Config) (soc limit : ℚ)
    (st st' : List Slot × UsageMap) (i : Nat)
    (h : smartFillStepNoRollback cfg soc limit st i = .ok st') :
    st'.1.length = st.1.length := by
  unfold smartFillStepNoRollback at h
  dsimp only at h
  split at h
  · cases h; rfl
  · split at h
    · cases h; rfl
    · split at h
      · cases h
      · cases h; simp [List.length_set]

lemma smartFillGo_eq_noRollback (cfg : Config) (soc limit : ℚ) :
    ∀ (cands : List Nat) (st : List Slot × UsageMap), st.1 ≠ [] →
      smartFillGo cfg soc limit st cands = smartFillGoNoRollback cfg soc limit st cands
  | [], _, _ => rfl
  | c :: rest, st, h => by
      unfold smartFillGo smartFillGoNoRollback
      rw [smartFillStep_eq_noRollback cfg soc limit st c h]
      cases hstep : smartFillStepNoRollback cfg soc limit st c with
      | error e => rfl
      | ok st' =>
          have h' : st'.1 ≠ [] := by
            intro hc
            exact h (List.eq_nil_of_length_eq_zero (by
              rw [← smartFillStepNoRollback_length cfg soc limit st st' c hstep]
              simp [hc]))
          exact smartFillGo_eq_noRollback cfg soc limit rest st' h'

/-! ### Claim C9 -/

/-- Claim C9: the capacity re-check of the Cheap-Hour Fill Optimizer always
succeeds (the simulator clamps every `battery_after` at capacity, so the
recomputed maximum can never exceed it), hence the rollback branch is
unreachable and the phase equals its rollback-free variant: every tentative
increase is kept. -/
theorem claim_C9 (cfg : Config) (soc limit : ℚ) (tl : List Slot) (h : tl ≠ []) :
    check_capacity cfg soc tl = some true ∧
    phase_smart_fill_cheap_hours cfg tl soc limit =
      phase_smart_fill_cheap_hoursNoRollback cfg tl soc limit :=
  ⟨check_capacity_some_true cfg soc tl h,
    congrArg (Except.map Prod.fst)
      (smartFillGo_eq_noRollback cfg soc limit (cheapCandidates tl)
        (tl, get_hourly_usage_map cfg tl) h)⟩

/-- Witness for C9 on the concrete two-slot timeline `tl_fill`. -/
theorem claim_C9_witness :
    check_capacity cfg_fill 0 tl_fill = some true ∧
    phase_smart_fill_cheap_hours cfg_fill tl_fill 0 200 =
      phase_smart_fill_cheap_hoursNoRollback cfg_fill tl_fill 0 200 :=
  claim_C9 cfg_fill 0 200 tl_fill (by simp [tl_fill])

set_option maxRecDepth 100000

/-! ### Claim C10 -/

/-- Claim C10: with no resolvable price data (`setup_timeline` returned
`None`) or a zero-slot timeline, `run_optimizer` returns before any phase
runs: an empty history in history mode, no timeline otherwise, and no
error. -/
theorem claim_C10 (cfg : Config) (return_history : Bool) (soc base_price : ℚ) :
    run_optimizer cfg none return_history =
      .ok (if return_history then .hist [] else .tl none) ∧
    run_optimizer cfg (some ([], soc, base_price)) return_history =
      .ok (if return_history then .hist [] else .tl none) := by
  exact ⟨rfl, by simp [run_optimizer]⟩

/-! ### Claim C3 -/

/-- Claim C3 (code bug exhibit): on a timeline holding a feasible
buy/sell pair — `(0, 1)` passes every active-arbitrage filter and its
projected profit is positive — `phase_4_active_arbitrage` does not select and
apply the pair: it raises `NameError`, because the accept branch reads the
undefined name `prof` (line 562, a typo for `profit`). -/
theorem claim_C3 :
    arbQualifies cfg_arb tl_arb
        (calculate_battery_profile_from_list cfg_arb 500 (tl_arb.map (·.grid_wh)) tl_arb)
        (get_hourly_usage_map cfg_arb tl_arb) 500 0 1 = true ∧
    (0 : ℚ) < arbProfit cfg_arb tl_arb 0 1 ∧
    cfg_arb.MIN_PRICE_DIFF_ORE_FOR_SELLING ≤ arbProfit cfg_arb tl_arb 0 1 ∧
    phase_4_active_arbitrage cfg_arb tl_arb 500 0 =
      .error "NameError: name 'prof' is not defined" := by
  with_unfolding_all decide

/-! ### Claim C4, counterexample -/

/-- Counterexample to C4 as stated: on `tl_hour` the single hour starts with
an aggregate import of 500 Wh, but the reallocation can only place
`base + max rate = 100` Wh, the validation accepts the result, and the hour's
aggregate import drops from 500 to 100: the phase does not merely reassign
the volume. -/
theorem claim_C4_counterexample :
    hourAgg cfg_hour tl_hour 0 = 500 ∧
    (phase_optimize_within_hours cfg_hour tl_hour 500).1 = [⟨10, 0, 0, 100, 0⟩] ∧
    hourAgg cfg_hour (phase_optimize_within_hours cfg_hour tl_hour 500).1 0 = 100 ∧
    hourAgg cfg_hour (phase_optimize_within_hours cfg_hour tl_hour 500).1 0 ≠
      hourAgg cfg_hour tl_hour 0 := by
  with_unfolding_all decide

/-! ### Claim C7, counterexample -/

/-- Counterexample to C7 as stated: with a cycling cost of 100 öre the swap
pass accepts the pair `(0, 1)` whose price spread is exactly the cycling
cost, so the accepted swap's projected profit increment `spread − cycling
cost` is 0, not a strict increase (the swap is indeed applied: slot 0 gains
50 Wh of import, slot 1 loses it). -/
theorem claim_C7_counterexample :
    (findBestSwap cfg_swap tl_swap 500 60).1 = some (0, 1) ∧
    swapSpread tl_swap 0 1 - cfg_swap.BATTERY_CYCLE_COST_ORE = 0 ∧
    (phase_3_price_optimization cfg_swap tl_swap 500 60).1 =
      [⟨0, 0, 100, 100, 0⟩, ⟨100, 1, 0, -50, 0⟩] := by
  with_unfolding_all decide

/-! ### Claim C8, counterexample -/

/-- Counterexample to C8 as stated: starting from `tl_fill` (whose cheap slot
has a negative `grid_wh + bias`), the first fill pass returns `tl_fill1`, and
a second pass on that output with the same limit changes the cheap slot again
(to `tl_fill2`): the first run's output is not a fixed point. -/
theorem claim_C8_counterexample :
    phase_smart_fill_cheap_hours cfg_fill tl_fill 0 200 = .ok tl_fill1 ∧
    phase_smart_fill_cheap_hours cfg_fill tl_fill1 0 200 = .ok tl_fill2 ∧
    tl_fill2 ≠ tl_fill1 := by
  with_unfolding_all decide

/-! ### Claim C2, counterexample -/

/-- Counterexample to C2 as stated: from the starting charge 995 ≥ reserve
100, the full phase-1-to-4 pipeline completes without error and produces
`tl_res_final`, yet replaying the simulator on the resulting `grid_delta`
sequence puts slot 2 at 90 Wh and slot 3 at 65 Wh — both below the 100 Wh
minimum reserve (phase 3's swap pushed the profile through the capacity clamp,
losing stored energy the later slots relied on). -/
theorem claim_C2_counterexample :
    cfg_res.MIN_BATTERY_BUFFER_WH ≤ 995 ∧
    run_phases cfg_res tl_res 995 0 = Except.ok tl_res_final ∧
    (calculate_battery_profile_from_list cfg_res 995
        (tl_res_final.map (·.grid_wh)) tl_res_final).getD 2 0 <
      cfg_res.MIN_BATTERY_BUFFER_WH ∧
    (calculate_battery_profile_from_list cfg_res 995
        (tl_res_final.map (·.grid_wh)) tl_res_final).getD 3 0 <
      cfg_res.MIN_BATTERY_BUFFER_WH := by
  with_unfolding_all decide

/-! ### Claim C5 -/

lemma foldl_sub_sum (f : Nat → ℚ) :
    ∀ (l : List Nat) (a : ℚ), l.foldl (fun acc i => acc - f i) a = a - (l.map f).sum
  | [], a => by simp
  | i :: rest, a => by
      rw [List.foldl_cons, foldl_sub_sum f rest (a - f i)]
      simp [List.sum_cons]
      ring

lemma hourFallthroughSoc_eq_sub_sum (cfg : Config) (tl : List Slot)
    (indices : List Nat) (soc : ℚ) :
    hourFallthroughSoc cfg tl indices soc =
      soc - (indices.map (fun i => (tl.getD i default).base_net_load_wh -
        ((tl.getD i default).grid_wh + cfg.BIAS_WH_PER_QUARTER))).sum := by
  unfold hourFallthroughSoc
  exact foldl_sub_sum _ indices soc

/-- Claim C5: when an hour's tentative re-assignment fails validation, the
hour step leaves every slot's `grid_delta` at its exact pre-pass value (the
returned timeline is the input itself) and recomputes the running charge for
that hour from those original values. -/
theorem claim_C5 (cfg : Config) (tl : List Slot) (soc : ℚ) (hour : Nat)
    (htot : 0 < ((hourIndicesOf tl hour).map
      (fun i => (tl.getD i default).grid_wh + cfg.BIAS_WH_PER_QUARTER)).sum)
    (hfail : (hourValidate cfg (hourTentative cfg tl hour)
      (List.insertionSort (fun a b => a ≤ b) (hourIndicesOf tl hour)) soc).2 = false) :
    processHour cfg (tl, soc) hour =
      (tl, soc - ((hourIndicesOf tl hour).map
        (fun i => (tl.getD i default).base_net_load_wh -
          ((tl.getD i default).grid_wh + cfg.BIAS_WH_PER_QUARTER))).sum) := by
  have hmm : ((hourIndicesOf tl hour).map (fun i => (i, tl.getD i default))).map
      (fun q => q.2.grid_wh + cfg.BIAS_WH_PER_QUARTER) =
      (hourIndicesOf tl hour).map
        (fun i => (tl.getD i default).grid_wh + cfg.BIAS_WH_PER_QUARTER) := by
    rw [List.map_map]; rfl
  have hne : ¬(hourIndicesOf tl hour = []) := by
    intro hc
    rw [hc] at htot
    simp at htot
  unfold processHour
  dsimp only
  rw [if_neg hne, hmm, if_neg (not_le.mpr htot), hfail]
  simp [hourFallthroughSoc_eq_sub_sum]

/-- Witness for C5 on the one-slot hour `tl_rb` from starting charge 0: the
tentative assignment fails the 50 Wh reserve check and the step returns the
original timeline with the recomputed charge. -/
theorem claim_C5_witness :
    (0 : ℚ) < ((hourIndicesOf tl_rb 0).map
      (fun i => (tl_rb.getD i default).grid_wh + cfg_rb.BIAS_WH_PER_QUARTER)).sum ∧
    (hourValidate cfg_rb (hourTentative cfg_rb tl_rb 0)
      (List.insertionSort (fun a b => a ≤ b) (hourIndicesOf tl_rb 0)) 0).2 = false ∧
    processHour cfg_rb (tl_rb, 0) 0 =
      (tl_rb, 0 - ((hourIndicesOf tl_rb 0).map
        (fun i => (tl_rb.getD i default).base_net_load_wh -
          ((tl_rb.getD i default).grid_wh + cfg_rb.BIAS_WH_PER_QUARTER))).sum) :=
  ⟨by with_unfolding_all decide, by with_unfolding_all decide,
    claim_C5 cfg_rb tl_rb 0 0 (by with_unfolding_all decide) (by with_unfolding_all decide)⟩

/-! ### Claim C6 -/

lemma lowerClamp_eq_max (x : ℚ) : (if x < 0 then 0 else x) = max 0 x := by
  rcases lt_or_le x 0 with h | h
  · simp [h, max_eq_left h.le]
  · simp [not_lt.mpr h, max_eq_right h]

lemma phase1Dis_eq (cfg : Config) (optimal soc : ℚ) (item : Slot) :
    phase1Dis cfg optimal soc item =
      if soc - min (max 0 (item.base_net_load_wh -
            max 0 (optimal - cfg.BIAS_WH_PER_QUARTER)))
          cfg.MAX_BATTERY_OUTPUT_PER_QUARTER_WH < cfg.MIN_BATTERY_BUFFER_WH then
        max 0 (soc - cfg.MIN_BATTERY_BUFFER_WH)
      else
        min (max 0 (item.base_net_load_wh - max 0 (optimal - cfg.BIAS_WH_PER_QUARTER)))
          cfg.MAX_BATTERY_OUTPUT_PER_QUARTER_WH := by
  unfold phase1Dis
  dsimp only
  rw [lowerClamp_eq_max, lowerClamp_eq_max, upperClamp_eq_min, min_comm]

lemma phase1Dis_props (cfg : Config) (optimal soc : ℚ) (item : Slot)
    (hmax : 0 ≤ cfg.MAX_BATTERY_OUTPUT_PER_QUARTER_WH)
    (hbuf : cfg.MIN_BATTERY_BUFFER_WH ≤ soc) :
    0 ≤ phase1Dis cfg optimal soc item ∧
    phase1Dis cfg optimal soc item ≤ cfg.MAX_BATTERY_OUTPUT_PER_QUARTER_WH ∧
    cfg.MIN_BATTERY_BUFFER_WH ≤ soc - phase1Dis cfg optimal soc item ∧
    (soc - min (max 0 (item.base_net_load_wh -
          max 0 (optimal - cfg.BIAS_WH_PER_QUARTER)))
        cfg.MAX_BATTERY_OUTPUT_PER_QUARTER_WH < cfg.MIN_BATTERY_BUFFER_WH →
      phase1Dis cfg optimal soc item = soc - cfg.MIN_BATTERY_BUFFER_WH ∧
      max 0 (optimal - cfg.BIAS_WH_PER_QUARTER) <
        item.base_net_load_wh - phase1Dis cfg optimal soc item) := by
  rw [phase1Dis_eq]
  by_cases hbr : soc - min (max 0 (item.base_net_load_wh -
      max 0 (optimal - cfg.BIAS_WH_PER_QUARTER)))
      cfg.MAX_BATTERY_OUTPUT_PER_QUARTER_WH < cfg.MIN_BATTERY_BUFFER_WH
  · rw [if_pos hbr]
    have hsb : (0 : ℚ) ≤ soc - cfg.MIN_BATTERY_BUFFER_WH := sub_nonneg.mpr hbuf
    have hmax0 : max 0 (soc - cfg.MIN_BATTERY_BUFFER_WH) = soc - cfg.MIN_BATTERY_BUFFER_WH :=
      max_eq_right hsb
    have hlt : soc - cfg.MIN_BATTERY_BUFFER_WH <
        min (max 0 (item.base_net_load_wh - max 0 (optimal - cfg.BIAS_WH_PER_QUARTER)))
          cfg.MAX_BATTERY_OUTPUT_PER_QUARTER_WH := by linarith
    have hltM : soc - cfg.MIN_BATTERY_BUFFER_WH <
        max 0 (item.base_net_load_wh - max 0 (optimal - cfg.BIAS_WH_PER_QUARTER)) :=
      hlt.trans_le (min_le_left _ _)
    have hx : soc - cfg.MIN_BATTERY_BUFFER_WH <
        item.base_net_load_wh - max 0 (optimal - cfg.BIAS_WH_PER_QUARTER) := by
      rcases lt_max_iff.mp hltM with hc | hc
      · exact absurd hc (not_lt.mpr hsb)
      · exact hc
    refine ⟨le_max_left _ _, ?_, ?_, fun _ => ⟨hmax0, ?_⟩⟩
    · rw [hmax0]
      exact le_of_lt (hlt.trans_le (min_le_right _ _))
    · rw [hmax0]; linarith
    · rw [hmax0]
      have := le_max_left (0 : ℚ) (optimal - cfg.BIAS_WH_PER_QUARTER)
      linarith
  · rw [if_neg hbr]
    refine ⟨le_min (le_max_left _ _) hmax, min_le_right _ _, by linarith [not_lt.mp hbr],
      fun hc => absurd hc hbr⟩

lemma phase1Go_spec (cfg : Config) (optimal : ℚ)
    (hmax : 0 ≤ cfg.MAX_BATTERY_OUTPUT_PER_QUARTER_WH) :
    ∀ (tl : List Slot) (soc : ℚ), cfg.MIN_BATTERY_BUFFER_WH ≤ soc →
      cfg.MIN_BATTERY_BUFFER_WH ≤ (phase1Go cfg optimal soc tl).2 ∧
      (phase1Go cfg optimal soc tl).2 =
        soc - ((List.range tl.length).map (fun i =>
          (tl.getD i default).base_net_load_wh -
            (((phase1Go cfg optimal soc tl).1.getD i default).grid_wh +
              cfg.BIAS_WH_PER_QUARTER))).sum ∧
      (∀ i, i < tl.length →
        0 ≤ (tl.getD i default).base_net_load_wh -
          (((phase1Go cfg optimal soc tl).1.getD i default).grid_wh +
            cfg.BIAS_WH_PER_QUARTER) ∧
        (tl.getD i default).base_net_load_wh -
            (((phase1Go cfg optimal soc tl).1.getD i default).grid_wh +
              cfg.BIAS_WH_PER_QUARTER) ≤ cfg.MAX_BATTERY_OUTPUT_PER_QUARTER_WH ∧
        ((phase1Go cfg optimal soc tl).1.getD i default).batt_wh =
          (if i = 0 then soc
           else ((phase1Go cfg optimal soc tl).1.getD (i - 1) default).batt_wh) -
            ((tl.getD i default).base_net_load_wh -
              (((phase1Go cfg optimal soc tl).1.getD i default).grid_wh +
                cfg.BIAS_WH_PER_QUARTER)) ∧
        cfg.MIN_BATTERY_BUFFER_WH ≤ ((phase1Go cfg optimal soc tl).1.getD i default).batt_wh ∧
        ((if i = 0 then soc
          else ((phase1Go cfg optimal soc tl).1.getD (i - 1) default).batt_wh) -
            min (max 0 ((tl.getD i default).base_net_load_wh -
                max 0 (optimal - cfg.BIAS_WH_PER_QUARTER)))
              cfg.MAX_BATTERY_OUTPUT_PER_QUARTER_WH < cfg.MIN_BATTERY_BUFFER_WH →
          (tl.getD i default).base_net_load_wh -
              (((phase1Go cfg optimal soc tl).1.getD i default).grid_wh +
                cfg.BIAS_WH_PER_QUARTER) =
            (if i = 0 then soc
             else ((phase1Go cfg optimal soc tl).1.getD (i - 1) default).batt_wh) -
              cfg.MIN_BATTERY_BUFFER_WH ∧
          max 0 (optimal - cfg.BIAS_WH_PER_QUARTER) <
            ((phase1Go cfg optimal soc tl).1.getD i default).grid_wh +
              cfg.BIAS_WH_PER_QUARTER)) := by
  intro tl
  induction tl with
  | nil =>
      intro soc hbuf
      exact ⟨hbuf, by simp [phase1Go], fun i hi => absurd hi (by simp)⟩
  | cons item rest ih =>
      intro soc hbuf
      obtain ⟨hd0, hdM, hres, hbreach⟩ := phase1Dis_props cfg optimal soc item hmax hbuf
      have hbuf' : cfg.MIN_BATTERY_BUFFER_WH ≤ soc - phase1Dis cfg optimal soc item := hres
      obtain ⟨ih1, ih2, ih3⟩ := ih (soc - phase1Dis cfg optimal soc item) hbuf'
      have hgo : phase1Go cfg optimal soc (item :: rest) =
          ({ item with
              grid_wh := (item.base_net_load_wh - phase1Dis cfg optimal soc item) -
                cfg.BIAS_WH_PER_QUARTER
              batt_wh := soc - phase1Dis cfg optimal soc item } ::
            (phase1Go cfg optimal (soc - phase1Dis cfg optimal soc item) rest).1,
            (phase1Go cfg optimal (soc - phase1Dis cfg optimal soc item) rest).2) := rfl
      rw [hgo]
      have hdisEq : item.base_net_load_wh -
          (((item.base_net_load_wh - phase1Dis cfg optimal soc item) -
            cfg.BIAS_WH_PER_QUARTER) + cfg.BIAS_WH_PER_QUARTER) =
          phase1Dis cfg optimal soc item := by ring
      refine ⟨ih1, ?_, ?_⟩
      · rw [show (item :: rest).length = rest.length + 1 from rfl,
          List.range_succ_eq_map, List.map_cons, List.sum_cons, List.map_map]
        simp only [Function.comp_def, Nat.succ_eq_add_one, List.getD_cons_succ,
          List.getD_cons_zero]
        rw [hdisEq, ih2]
        ring
      · intro i hi
        cases i with
        | zero =>
            simp only [List.getD_cons_zero, eq_self_iff_true, if_true]
            rw [hdisEq]
            refine ⟨hd0, hdM, by ring, hres, fun hbr => ?_⟩
            obtain ⟨he, hg⟩ := hbreach hbr
            exact ⟨he, by linarith⟩
        | succ j =>
            have hj : j < rest.length := by simpa using Nat.lt_of_succ_lt_succ hi
            have := ih3 j hj
            simp only [List.getD_cons_succ, Nat.succ_sub_one]
            cases j with
            | zero =>
                simpa only [List.getD_cons_zero, if_pos rfl] using this
            | succ k =>
                simpa only [List.getD_cons_succ, Nat.succ_sub_one] using this

/-- Claim C6: after `phase_1_peak_shaving` (writing `dis i` for slot `i`'s
discharge `base_net_load − (grid_delta + bias)`, and `socB i` for the tracked
charge entering slot `i`), every slot satisfies `0 ≤ dis i ≤ rate limit`, the
tracked charge `batt_wh = socB i − dis i` never falls below the minimum
reserve, and whenever the unclamped discharge
`min (max 0 (base − max 0 (ceiling − bias))) limit` would breach the reserve,
the discharge is capped at exactly `socB i − reserve` and the slot's
realized import `grid_delta + bias` strictly exceeds the held level
`max 0 (ceiling − bias)`; finally the cumulative discharge is at most the
starting charge minus the reserve.  Hypotheses: a nonnegative rate limit and
a starting charge at least the reserve. -/
theorem claim_C6 (cfg : Config) (tl : List Slot) (soc : ℚ)
    (hmax : 0 ≤ cfg.MAX_BATTERY_OUTPUT_PER_QUARTER_WH)
    (hbuf : cfg.MIN_BATTERY_BUFFER_WH ≤ soc) :
    (∀ i, i < tl.length →
      0 ≤ (tl.getD i default).base_net_load_wh -
        (((phase_1_peak_shaving cfg tl soc).1.getD i default).grid_wh +
          cfg.BIAS_WH_PER_QUARTER) ∧
      (tl.getD i default).base_net_load_wh -
          (((phase_1_peak_shaving cfg tl soc).1.getD i default).grid_wh +
            cfg.BIAS_WH_PER_QUARTER) ≤ cfg.MAX_BATTERY_OUTPUT_PER_QUARTER_WH ∧
      ((phase_1_peak_shaving cfg tl soc).1.getD i default).batt_wh =
        (if i = 0 then soc
         else ((phase_1_peak_shaving cfg tl soc).1.getD (i - 1) default).batt_wh) -
          ((tl.getD i default).base_net_load_wh -
            (((phase_1_peak_shaving cfg tl soc).1.getD i default).grid_wh +
              cfg.BIAS_WH_PER_QUARTER)) ∧
      cfg.MIN_BATTERY_BUFFER_WH ≤
        ((phase_1_peak_shaving cfg tl soc).1.getD i default).batt_wh ∧
      ((if i = 0 then soc
        else ((phase_1_peak_shaving cfg tl soc).1.getD (i - 1) default).batt_wh) -
          min (max 0 ((tl.getD i default).base_net_load_wh -
              max 0 ((phase_1_peak_shaving cfg tl soc).2.1 - cfg.BIAS_WH_PER_QUARTER)))
            cfg.MAX_BATTERY_OUTPUT_PER_QUARTER_WH < cfg.MIN_BATTERY_BUFFER_WH →
        (tl.getD i default).base_net_load_wh -
            (((phase_1_peak_shaving cfg tl soc).1.getD i default).grid_wh +
              cfg.BIAS_WH_PER_QUARTER) =
          (if i = 0 then soc
           else ((phase_1_peak_shaving cfg tl soc).1.getD (i - 1) default).batt_wh) -
            cfg.MIN_BATTERY_BUFFER_WH ∧
        max 0 ((phase_1_peak_shaving cfg tl soc).2.1 - cfg.BIAS_WH_PER_QUARTER) <
          ((phase_1_peak_shaving cfg tl soc).1.getD i default).grid_wh +
            cfg.BIAS_WH_PER_QUARTER)) ∧
    ((List.range tl.length).map (fun i =>
      (tl.getD i default).base_net_load_wh -
        (((phase_1_peak_shaving cfg tl soc).1.getD i default).grid_wh +
          cfg.BIAS_WH_PER_QUARTER))).sum ≤ soc - cfg.MIN_BATTERY_BUFFER_WH := by
  have hopt : (phase_1_peak_shaving cfg tl soc).1 =
      (phase1Go cfg ((phase_1_peak_shaving cfg tl soc).2.1) soc tl).1 := rfl
  obtain ⟨h1, h2, h3⟩ :=
    phase1Go_spec cfg ((phase_1_peak_shaving cfg tl soc).2.1) hmax tl soc hbuf
  constructor
  · intro i hi
    rw [hopt]
    exact h3 i hi
  · rw [hopt]
    linarith [h2, h1]

/-- Witness for C6 on the concrete timeline `tl_res` from 995 Wh, where slot 3
triggers the reserve cap. -/
theorem claim_C6_witness :
    ((0 : ℚ) ≤ cfg_res.MAX_BATTERY_OUTPUT_PER_QUARTER_WH ∧
      cfg_res.MIN_BATTERY_BUFFER_WH ≤ 995) ∧
    ((∀ i, i < tl_res.length →
      0 ≤ (tl_res.getD i default).base_net_load_wh -
        (((phase_1_peak_shaving cfg_res tl_res 995).1.getD i default).grid_wh +
          cfg_res.BIAS_WH_PER_QUARTER) ∧
      (tl_res.getD i default).base_net_load_wh -
          (((phase_1_peak_shaving cfg_res tl_res 995).1.getD i default).grid_wh +
            cfg_res.BIAS_WH_PER_QUARTER) ≤ cfg_res.MAX_BATTERY_OUTPUT_PER_QUARTER_WH ∧
      ((phase_1_peak_shaving cfg_res tl_res 995).1.getD i default).batt_wh =
        (if i = 0 then 995
         else ((phase_1_peak_shaving cfg_res tl_res 995).1.getD (i - 1) default).batt_wh) -
          ((tl_res.getD i default).base_net_load_wh -
            (((phase_1_peak_shaving cfg_res tl_res 995).1.getD i default).grid_wh +
              cfg_res.BIAS_WH_PER_QUARTER)) ∧
      cfg_res.MIN_BATTERY_BUFFER_WH ≤
        ((phase_1_peak_shaving cfg_res tl_res 995).1.getD i default).batt_wh ∧
      ((if i = 0 then 995
        else ((phase_1_peak_shaving cfg_res tl_res 995).1.getD (i - 1) default).batt_wh) -
          min (max 0 ((tl_res.getD i default).base_net_load_wh -
              max 0 ((phase_1_peak_shaving cfg_res tl_res 995).2.1 - cfg_res.BIAS_WH_PER_QUARTER)))
            cfg_res.MAX_BATTERY_OUTPUT_PER_QUARTER_WH < cfg_res.MIN_BATTERY_BUFFER_WH →
        (tl_res.getD i default).base_net_load_wh -
            (((phase_1_peak_shaving cfg_res tl_res 995).1.getD i default).grid_wh +
              cfg_res.BIAS_WH_PER_QUARTER) =
          (if i = 0 then 995
           else ((phase_1_peak_shaving cfg_res tl_res 995).1.getD (i - 1) default).batt_wh) -
            cfg_res.MIN_BATTERY_BUFFER_WH ∧
        max 0 ((phase_1_peak_shaving cfg_res tl_res 995).2.1 - cfg_res.BIAS_WH_PER_QUARTER) <
          ((phase_1_peak_shaving cfg_res tl_res 995).1.getD i default).grid_wh +
            cfg_res.BIAS_WH_PER_QUARTER)) ∧
    ((List.range tl_res.length).map (fun i =>
      (tl_res.getD i default).base_net_load_wh -
        (((phase_1_peak_shaving cfg_res tl_res 995).1.getD i default).grid_wh +
          cfg_res.BIAS_WH_PER_QUARTER))).sum ≤ 995 - cfg_res.MIN_BATTERY_BUFFER_WH) :=
  ⟨⟨by norm_num [cfg_res], by norm_num [cfg_res]⟩,
    claim_C6 cfg_res tl_res 995 (by norm_num [cfg_res]) (by norm_num [cfg_res])⟩

/-! ### Claim C7 -/

lemma swapFold_mono (cfg : Config) (tl : List Slot) (prof : List ℚ) (soc ceil : ℚ) :
    ∀ (pairs : List (Nat × Nat)) (acc : Option (Nat × Nat) × ℚ),
      acc.2 ≤ (pairs.foldl (swapFoldStep cfg tl prof soc ceil) acc).2
  | [], _ => le_rfl
  | p :: rest, acc => by
      rw [List.foldl_cons]
      refine le_trans ?_ (swapFold_mono cfg tl prof soc ceil rest _)
      unfold swapFoldStep
      split
      · rename_i hc
        simp only [Bool.and_eq_true, decide_eq_true_eq] at hc
        exact le_of_lt hc.2
      · exact le_rfl

lemma swapFold_certificate (cfg : Config) (tl : List Slot) (prof : List ℚ) (soc ceil : ℚ) :
    ∀ (pairs : List (Nat × Nat)) (acc : Option (Nat × Nat) × ℚ),
      (0 ≤ acc.2 ∧ (∀ s e, acc.1 = some (s, e) →
        swapQualifies cfg tl prof soc ceil s e = true ∧
        acc.2 = swapSpread tl s e ∧ 0 < acc.2)) →
      0 ≤ (pairs.foldl (swapFoldStep cfg tl prof soc ceil) acc).2 ∧
      (∀ s e, (pairs.foldl (swapFoldStep cfg tl prof soc ceil) acc).1 = some (s, e) →
        swapQualifies cfg tl prof soc ceil s e = true ∧
        (pairs.foldl (swapFoldStep cfg tl prof soc ceil) acc).2 = swapSpread tl s e ∧
        0 < (pairs.foldl (swapFoldStep cfg tl prof soc ceil) acc).2)
  | [], _, h => h
  | p :: rest, acc, h => by
      rw [List.foldl_cons]
      refine swapFold_certificate cfg tl prof soc ceil rest _ ?_
      rcases p with ⟨pc, pe⟩
      unfold swapFoldStep
      split
      · rename_i hc
        simp only [Bool.and_eq_true, decide_eq_true_eq] at hc
        refine ⟨le_of_lt (lt_of_le_of_lt h.1 hc.2), ?_⟩
        intro s e hse
        have hse' : (pc, pe) = (s, e) := Option.some.inj hse
        obtain ⟨hs, he⟩ := Prod.mk.inj hse'
        subst hs
        subst he
        exact ⟨hc.1, rfl, lt_of_le_of_lt h.1 hc.2⟩
      · exact h

lemma swapFold_max (cfg : Config) (tl : List Slot) (prof : List ℚ) (soc ceil : ℚ) :
    ∀ (pairs : List (Nat × Nat)) (acc : Option (Nat × Nat) × ℚ) (p q : Nat),
      (p, q) ∈ pairs → swapQualifies cfg tl prof soc ceil p q = true →
      swapSpread tl p q ≤ (pairs.foldl (swapFoldStep cfg tl prof soc ceil) acc).2
  | [], _, _, _, hp, _ => absurd hp (by simp)
  | pr :: rest, acc, p, q, hp, hq => by
      rw [List.foldl_cons]
      rcases List.mem_cons.mp hp with hp | hp
      · subst hp
        refine le_trans ?_ (swapFold_mono cfg tl prof soc ceil rest _)
        unfold swapFoldStep
        split
        · rename_i hc
          simp only [Bool.and_eq_true, decide_eq_true_eq] at hc
          exact le_rfl
        · rename_i hc
          simp only [Bool.and_eq_true, decide_eq_true_eq, not_and, not_lt, hq,
            forall_true_left] at hc
          exact hc
      · exact swapFold_max cfg tl prof soc ceil rest _ p q hp hq

lemma mem_scanPairs {n p q : Nat} : (p, q) ∈ scanPairs n ↔ p < n ∧ q < n := by
  simp [scanPairs, List.mem_flatMap, List.mem_map, List.mem_range]

lemma swapQualifies_cycle_le (cfg : Config) (tl : List Slot) (prof : List ℚ)
    (soc ceil : ℚ) (s e : Nat)
    (hq : swapQualifies cfg tl prof soc ceil s e = true) :
    cfg.BATTERY_CYCLE_COST_ORE ≤ swapSpread tl s e := by
  unfold swapQualifies at hq
  simp only [Bool.and_eq_true, Bool.not_eq_true', decide_eq_false_iff_not, not_lt] at hq
  unfold swapSpread
  exact hq.1.1.1.1.2

lemma phase3Loop_count_le (cfg : Config) (soc ceil : ℚ) :
    ∀ (fuel : Nat) (tl : List Slot), (phase3Loop cfg soc ceil fuel tl).2 ≤ fuel
  | 0, _ => le_rfl
  | fuel + 1, tl => by
      unfold phase3Loop
      rcases hf : findBestSwap cfg tl soc ceil with ⟨o, sp⟩
      cases o with
      | none => simp
      | some pr =>
          rcases pr with ⟨s, d⟩
          have := phase3Loop_count_le cfg soc ceil fuel (applySwap tl s d)
          simpa using Nat.succ_le_succ this

lemma phase4Loop_count_le (cfg : Config) (soc : ℚ) :
    ∀ (fuel : Nat) (st : List Slot × UsageMap) (r : List Slot × UsageMap × Nat),
      phase4Loop cfg soc fuel st = .ok r → r.2.2 ≤ fuel
  | 0, st, r, h => by
      cases st
      cases h
      exact le_rfl
  | fuel + 1, (tl, hu), r, h => by
      unfold phase4Loop at h
      split at h
      · cases h
      · cases h
        simp
      · rename_i b s heq
        dsimp only at h
        split at h
        · cases h
        · split at h
          · cases h
          · rename_i tlF huF used heq2
            cases h
            simpa using Nat.succ_le_succ (phase4Loop_count_le cfg soc fuel _ _ heq2)

lemma findArbGo_ok (cfg : Config) (tl : List Slot) (prof : List ℚ) (hu : UsageMap)
    (soc : ℚ) :
    ∀ (pairs : List (Nat × Nat)) (st out : ℚ × Option (Nat × Nat)),
      findArbGo cfg tl prof hu soc st pairs = .ok out → out = st
  | [], _, _, h => by cases h; rfl
  | p :: rest, st, out, h => by
      unfold findArbGo at h
      split at h
      · cases h
      · exact findArbGo_ok cfg tl prof hu soc rest st out h

lemma findArb_ok_none (cfg : Config) (tl : List Slot) (hu : UsageMap) (soc : ℚ) :
    ∀ r, findArb cfg tl hu soc = .ok r → r = none := by
  intro r h
  unfold findArb at h
  dsimp only at h
  cases hfold : findArbGo cfg tl
      (calculate_battery_profile_from_list cfg soc (tl.map (·.grid_wh)) tl) hu soc
      ((0 : ℚ), (none : Option (Nat × Nat))) (scanPairs tl.length) with
  | error e => rw [hfold] at h; cases h
  | ok st =>
      rw [hfold] at h
      have hst := findArbGo_ok cfg tl
        (calculate_battery_profile_from_list cfg soc (tl.map (·.grid_wh)) tl) hu soc
        (scanPairs tl.length) _ st hfold
      cases h
      rw [hst]

lemma phase_3_count_le (cfg : Config) (tl : List Slot) (soc ceil : ℚ) :
    (phase_3_price_optimization cfg tl soc ceil).2 ≤ 500 := by
  unfold phase_3_price_optimization
  dsimp only
  exact phase3Loop_count_le cfg soc _ 500 tl

lemma phase4Loop_ok_fst (cfg : Config) (soc : ℚ) :
    ∀ (fuel : Nat) (tl : List Slot) (hu : UsageMap) (r : List Slot × UsageMap × Nat),
      phase4Loop cfg soc fuel (tl, hu) = .ok r → r.1 = tl
  | 0, tl, hu, r, h => by cases h; rfl
  | fuel + 1, tl, hu, r, h => by
      unfold phase4Loop at h
      split at h
      · cases h
      · cases h
        rfl
      · rename_i b s heq
        exact absurd (findArb_ok_none cfg tl hu soc _ heq) (by simp)

lemma phase_4_ok_eq (cfg : Config) (tl : List Slot) (soc bp : ℚ) :
    ∀ tl', phase_4_active_arbitrage cfg tl soc bp = .ok tl' → tl' = tl := by
  intro tl' h
  unfold phase_4_active_arbitrage at h
  cases heq : phase4Loop cfg soc 500 (tl, get_hourly_usage_map cfg tl) with
  | error e => rw [heq] at h; cases h
  | ok r =>
      rw [heq] at h
      rcases r with ⟨tlr, hur, usedr⟩
      have h' : (Except.ok tlr : Except String (List Slot)) = Except.ok tl' := h
      cases h'
      exact phase4Loop_ok_fst cfg soc 500 tl (get_hourly_usage_map cfg tl) _ heq

set_option maxHeartbeats 1600000

/-- Claim C7 (amended): phase 3 executes at most 500 iterations; the loop
stops, returning the timeline unchanged, on the first scan that finds no
feasible improving pair; every selected pair is feasible, of maximal spread
among feasible pairs, and its spread is at least the cycling cost and
strictly positive (so the projected profit increment `spread − cycling cost`
is nonnegative, strict only when the spread strictly exceeds the cycling
cost).  Phase 4 also executes at most 500 iterations, and whenever it
completes without raising it has accepted no swap: it returns its input
timeline unchanged. -/
theorem claim_C7 (cfg : Config) (tl : List Slot) (soc ceil bp : ℚ) :
    (phase_3_price_optimization cfg tl soc ceil).2 ≤ 500 ∧
    (∀ (fuel : Nat) (tl' : List Slot),
      (findBestSwap cfg tl' soc ceil).1 = none →
        phase3Loop cfg soc ceil (fuel + 1) tl' = (tl', 1)) ∧
    (∀ s e, (findBestSwap cfg tl soc ceil).1 = some (s, e) →
      swapQualifies cfg tl
        (calculate_battery_profile_from_list cfg soc (tl.map (·.grid_wh)) tl)
        soc ceil s e = true ∧
      cfg.BATTERY_CYCLE_COST_ORE ≤ swapSpread tl s e ∧
      0 < swapSpread tl s e ∧
      (∀ p q, p < tl.length → q < tl.length →
        swapQualifies cfg tl
          (calculate_battery_profile_from_list cfg soc (tl.map (·.grid_wh)) tl)
          soc ceil p q = true →
        swapSpread tl p q ≤ swapSpread tl s e)) ∧
    (∀ (fuel : Nat) (st : List Slot × UsageMap) (r : List Slot × UsageMap × Nat),
      phase4Loop cfg soc fuel st = .ok r → r.2.2 ≤ fuel) ∧
    (∀ tl', phase_4_active_arbitrage cfg tl soc bp = .ok tl' → tl' = tl) := by
  refine ⟨phase_3_count_le cfg tl soc ceil, ?_, ?_, phase4Loop_count_le cfg soc,
    phase_4_ok_eq cfg tl soc bp⟩
  · intro fuel tl' hnone
    rcases hf : findBestSwap cfg tl' soc ceil with ⟨o, sp⟩
    rw [hf] at hnone
    simp only at hnone
    subst hnone
    unfold phase3Loop
    rw [hf]
  · intro s e hsome
    have hsome' : ((scanPairs tl.length).foldl
        (swapFoldStep cfg tl
          (calculate_battery_profile_from_list cfg soc (tl.map (·.grid_wh)) tl) soc ceil)
        (none, 0)).1 = some (s, e) := hsome
    generalize hP : calculate_battery_profile_from_list cfg soc
      (tl.map (·.grid_wh)) tl = prof at hsome' ⊢
    have hcert := swapFold_certificate cfg tl prof soc ceil
      (scanPairs tl.length) (none, 0)
      ⟨le_rfl, fun s' e' hse => by simp at hse⟩
    obtain ⟨hq, hspEq, hpos⟩ := hcert.2 s e hsome'
    rw [hspEq] at hpos
    refine ⟨hq, swapQualifies_cycle_le cfg tl prof soc ceil s e hq, hpos, ?_⟩
    intro p q hp hq' hqual
    have hmax := swapFold_max cfg tl prof soc ceil
      (scanPairs tl.length) (none, 0) p q (mem_scanPairs.mpr ⟨hp, hq'⟩) hqual
    rw [hspEq] at hmax
    exact hmax

/-- Witness for C7 on the concrete two-slot timeline `tl_swap` with ceiling
60: the selection facts at the accepted pair `(0, 1)`, the stop-on-no-pair
fact on the post-swap timeline, and phase 4's unchanged-completion fact. -/
theorem claim_C7_witness :
    (phase_3_price_optimization cfg_swap tl_swap 500 60).2 ≤ 500 ∧
    (swapQualifies cfg_swap tl_swap
        (calculate_battery_profile_from_list cfg_swap 500 (tl_swap.map (·.grid_wh)) tl_swap)
        500 60 0 1 = true ∧
      cfg_swap.BATTERY_CYCLE_COST_ORE ≤ swapSpread tl_swap 0 1 ∧
      0 < swapSpread tl_swap 0 1 ∧
      (∀ p q, p < tl_swap.length → q < tl_swap.length →
        swapQualifies cfg_swap tl_swap
          (calculate_battery_profile_from_list cfg_swap 500 (tl_swap.map (·.grid_wh)) tl_swap)
          500 60 p q = true →
        swapSpread tl_swap p q ≤ swapSpread tl_swap 0 1)) ∧
    phase3Loop cfg_swap 500 60 500 [⟨0, 0, 100, 100, 0⟩, ⟨100, 1, 0, -50, 0⟩] =
      ([⟨0, 0, 100, 100, 0⟩, ⟨100, 1, 0, -50, 0⟩], 1) ∧
    (∀ tl', phase_4_active_arbitrage cfg_swap tl_swap 500 0 = .ok tl' → tl' = tl_swap) :=
  ⟨(claim_C7 cfg_swap tl_swap 500 60 0).1,
    (claim_C7 cfg_swap tl_swap 500 60 0).2.2.1 0 1 (by with_unfolding_all decide),
    (claim_C7 cfg_swap tl_swap 500 60 0).2.1 499 _ (by with_unfolding_all decide),
    (claim_C7 cfg_swap tl_swap 500 60 0).2.2.2.2⟩

/-! ### Claim C2, amended part -/

lemma getD_set {α : Type} [Inhabited α] (l : List α) (i j : Nat) (a d : α) :
    (l.set i a).getD j d = if i = j ∧ i < l.length then a else l.getD j d := by
  rw [List.getD_eq_getElem?_getD, List.getElem?_set, List.getD_eq_getElem?_getD]
  by_cases h1 : i = j
  · subst h1
    by_cases h2 : i < l.length
    · simp [h2]
    · simp [h2, List.getElem?_eq_none (by omega : l.length ≤ i)]
  · simp [h1]

lemma slotsGE_refl (tl : List Slot) : SlotsGE tl tl :=
  ⟨rfl, fun _ _ => ⟨le_rfl, rfl⟩⟩

lemma slotsGE_trans {a b c : List Slot} (h1 : SlotsGE a b) (h2 : SlotsGE b c) :
    SlotsGE a c := by
  refine ⟨h2.1.trans h1.1, fun i hi => ?_⟩
  obtain ⟨g1, b1⟩ := h1.2 i hi
  obtain ⟨g2, b2⟩ := h2.2 i (by rw [h1.1]; exact hi)
  exact ⟨g1.trans g2, b2.trans b1⟩

lemma slotsGE_set_add (tl : List Slot) (i : Nat) (t : ℚ) (ht : 0 ≤ t) :
    SlotsGE tl (tl.set i
      { tl.getD i default with grid_wh := (tl.getD i default).grid_wh + t }) := by
  refine ⟨List.length_set .., fun j hj => ?_⟩
  rw [getD_set]
  split
  · rename_i hc
    obtain ⟨hij, _⟩ := hc
    subst hij
    exact ⟨by simpa using ht, rfl⟩
  · exact ⟨le_rfl, rfl⟩

lemma map_grid_getD (l : List Slot) (i : Nat) (hi : i < l.length) :
    (l.map (·.grid_wh)).getD i 0 = (l.getD i default).grid_wh := by
  rw [getD_eq_getElem _ _ _ (by simpa using hi), getD_eq_getElem _ _ _ hi, List.getElem_map]

lemma distribPass1_ge (cfg : Config) :
    ∀ (cands : List Cand) (st : List Slot × UsageMap × ℚ) (out : List Slot × UsageMap × ℚ),
      (∀ c ∈ cands, 0 ≤ c.headroom) → distribPass1 cfg st cands = .ok out →
      SlotsGE st.1 out.1
  | [], st, out, _, h => by cases h; exact slotsGE_refl _
  | c :: rest, (tl, hu, rem), out, hhd, h => by
      unfold distribPass1 at h
      split at h
      · cases h
        exact slotsGE_refl _
      · rename_i hrem
        dsimp only at h
        split at h
        · cases h
        · rename_i hu' heq
          refine slotsGE_trans ?_
            (distribPass1_ge cfg rest _ out (fun d hd => hhd d (by simp [hd])) h)
          exact slotsGE_set_add tl c.idx _
            (le_min (le_of_lt (not_le.mp hrem)) (hhd c (by simp)))

lemma distribPass2_ge (cfg : Config) :
    ∀ (cands : List Cand) (st : List Slot × ℚ),
      (∀ c ∈ cands, 0 ≤ c.headroom) →
      SlotsGE st.1 (distribPass2 cfg st cands).1
  | [], st, _ => slotsGE_refl _
  | c :: rest, (tl, rem), hhd => by
      unfold distribPass2
      split
      · exact slotsGE_refl _
      · rename_i hrem
        refine slotsGE_trans (slotsGE_set_add tl c.idx _
          (le_min (le_of_lt (not_le.mp hrem)) (hhd c (by simp)))) ?_
        exact distribPass2_ge cfg rest _ (fun d hd => hhd d (by simp [hd]))

lemma get_candidates_headroom_nonneg (cfg : Config) (tl : List Slot)
    (hu : UsageMap) (soc : ℚ) (end_index : Nat) (ignore : Bool)
    (hmax : 0 ≤ cfg.MAX_BATTERY_OUTPUT_PER_QUARTER_WH) :
    ∀ c ∈ get_candidates cfg tl hu soc end_index ignore, 0 ≤ c.headroom := by
  intro c hc
  unfold get_candidates at hc
  rw [List.mem_filterMap] at hc
  obtain ⟨i, _, hi⟩ := hc
  dsimp only at hi
  split at hi
  · cases hi
  · split at hi
    · rename_i hcap _
      cases hi
      exact le_min (by linarith [not_le.mp hcap]) hmax
    · split at hi
      · cases hi
      · rename_i hcap _ hpeak
        cases hi
        exact le_min (by linarith [not_le.mp hcap]) (by linarith [not_le.mp hpeak])

lemma sorted_candidates_headroom_nonneg (cands : List Cand)
    (h : ∀ c ∈ cands, 0 ≤ c.headroom) :
    ∀ c ∈ List.insertionSort (fun a b => a.price ≤ b.price) cands, 0 ≤ c.headroom :=
  fun c hc => h c ((List.perm_insertionSort (fun a b => a.price ≤ b.price) cands).mem_iff.mp hc)

lemma distribute_ge (cfg : Config) (tl : List Slot) (needed : ℚ) (end_index : Nat)
    (soc : ℚ) (tl' : List Slot)
    (hmax : 0 ≤ cfg.MAX_BATTERY_OUTPUT_PER_QUARTER_WH)
    (h : distribute_smart_safety_fill cfg tl needed end_index soc = .ok tl') :
    SlotsGE tl tl' := by
  unfold distribute_smart_safety_fill at h
  dsimp only at h
  split at h
  · cases h
  · rename_i tl1 hu1 rem1 heq1
    have hge1 : SlotsGE tl tl1 :=
      distribPass1_ge cfg _ _ _
        (sorted_candidates_headroom_nonneg _
          (get_candidates_headroom_nonneg cfg tl _ soc end_index false hmax)) heq1
    split at h
    · rename_i hrem1
      have hge2 : SlotsGE tl1 (distribPass2 cfg (tl1, rem1)
          (List.insertionSort (fun a b => a.price ≤ b.price)
            (get_candidates cfg tl1 (get_hourly_usage_map cfg tl) soc end_index true))).1 :=
        distribPass2_ge cfg _ _
          (sorted_candidates_headroom_nonneg _
            (get_candidates_headroom_nonneg cfg tl1 _ soc end_index true hmax))
      split at h
      · rename_i hrem2
        split at h
        · cases h
        · rename_i t ts hcons
          cases h
          refine slotsGE_trans hge1 (slotsGE_trans hge2 ?_)
          rw [hcons]
          refine ⟨rfl, fun j hj => ?_⟩
          cases j with
          | zero =>
              constructor
              · simp only [List.getD_cons_zero]
                linarith [hrem2]
              · simp only [List.getD_cons_zero]
          | succ k => exact ⟨le_rfl, rfl⟩
      · cases h
        exact slotsGE_trans hge1 hge2
    · cases h
      exact hge1

lemma phase2Go_ge (cfg : Config) (soc : ℚ)
    (hmax : 0 ≤ cfg.MAX_BATTERY_OUTPUT_PER_QUARTER_WH) :
    ∀ (fuel : Nat) (tl tl2 : List Slot),
      phase2Go cfg soc fuel tl = .ok tl2 → SlotsGE tl tl2
  | 0, tl, tl2, h => by cases h; exact slotsGE_refl _
  | fuel + 1, tl, tl2, h => by
      unfold phase2Go at h
      split at h
      · cases h
        exact slotsGE_refl _
      · rename_i i needed heq
        split at h
        · cases h
        · rename_i tl' heq2
          exact slotsGE_trans (distribute_ge cfg tl needed i soc tl' hmax heq2)
            (phase2Go_ge cfg soc hmax fuel tl' tl2 h)

lemma profileGo_getD_mono (cfg : Config) :
    ∀ (pa pb : List (ℚ × Slot)) (ca cb : ℚ), ca ≤ cb → pa.length = pb.length →
      (∀ i, i < pa.length →
        (pa.getD i (0, default)).1 ≤ (pb.getD i (0, default)).1 ∧
        (pb.getD i (0, default)).2.base_net_load_wh =
          (pa.getD i (0, default)).2.base_net_load_wh) →
      ∀ i, i < pa.length →
        (profileGo cfg ca pa).getD i 0 ≤ (profileGo cfg cb pb).getD i 0
  | [], [], _, _, _, _, _, i, hi => absurd hi (by simp)
  | [], (g, it) :: _, _, _, _, hlen, _, _, _ => by simp at hlen
  | (g, it) :: _, [], _, _, _, hlen, _, _, _ => by simp at hlen
  | (ga, ita) :: ra, (gb, itb) :: rb, ca, cb, hc, hlen, hgb, i, hi => by
      obtain ⟨hg0, hb0⟩ := hgb 0 (by simp)
      simp only [List.getD_cons_zero] at hg0 hb0
      have hstep : ca + (ga + cfg.BIAS_WH_PER_QUARTER - ita.base_net_load_wh) ≤
          cb + (gb + cfg.BIAS_WH_PER_QUARTER - itb.base_net_load_wh) := by
        rw [hb0]
        linarith
      have hhead :
          (if ca + (ga + cfg.BIAS_WH_PER_QUARTER - ita.base_net_load_wh) >
              cfg.BATTERY_ENERGY_WH then cfg.BATTERY_ENERGY_WH
            else ca + (ga + cfg.BIAS_WH_PER_QUARTER - ita.base_net_load_wh)) ≤
          (if cb + (gb + cfg.BIAS_WH_PER_QUARTER - itb.base_net_load_wh) >
              cfg.BATTERY_ENERGY_WH then cfg.BATTERY_ENERGY_WH
            else cb + (gb + cfg.BIAS_WH_PER_QUARTER - itb.base_net_load_wh)) := by
        rw [upperClamp_eq_min, upperClamp_eq_min]
        exact min_le_min le_rfl hstep
      cases i with
      | zero => simpa [profileGo] using hhead
      | succ j =>
          have hj : j < ra.length := by simpa using Nat.lt_of_succ_lt_succ hi
          have := profileGo_getD_mono cfg ra rb _ _ hhead (by simpa using hlen)
            (fun k hk => by
              have := hgb (k + 1) (by simpa using Nat.succ_lt_succ hk)
              simpa using this) j hj
          simpa [profileGo] using this

lemma phase1Go_profile_ge (cfg : Config) (optimal : ℚ)
    (hmax : 0 ≤ cfg.MAX_BATTERY_OUTPUT_PER_QUARTER_WH) :
    ∀ (tl : List Slot) (soc : ℚ), cfg.MIN_BATTERY_BUFFER_WH ≤ soc →
      soc ≤ cfg.BATTERY_ENERGY_WH →
      ∀ x ∈ profileGo cfg soc
        (((phase1Go cfg optimal soc tl).1.map (·.grid_wh)).zip (phase1Go cfg optimal soc tl).1),
        cfg.MIN_BATTERY_BUFFER_WH ≤ x
  | [], _, _, _, x, hx => absurd hx (by simp [phase1Go, profileGo])
  | item :: rest, soc, hbuf, hcap, x, hx => by
      obtain ⟨hd0, hdM, hres, _⟩ := phase1Dis_props cfg optimal soc item hmax hbuf
      have hgo : phase1Go cfg optimal soc (item :: rest) =
          ({ item with
              grid_wh := (item.base_net_load_wh - phase1Dis cfg optimal soc item) -
                cfg.BIAS_WH_PER_QUARTER
              batt_wh := soc - phase1Dis cfg optimal soc item } ::
            (phase1Go cfg optimal (soc - phase1Dis cfg optimal soc item) rest).1,
            (phase1Go cfg optimal (soc - phase1Dis cfg optimal soc item) rest).2) := rfl
      rw [hgo] at hx
      simp only [List.map_cons, List.zip_cons_cons, profileGo, List.mem_cons] at hx
      have hc1 : soc + (item.base_net_load_wh - phase1Dis cfg optimal soc item -
          cfg.BIAS_WH_PER_QUARTER + cfg.BIAS_WH_PER_QUARTER - item.base_net_load_wh) =
          soc - phase1Dis cfg optimal soc item := by ring
      rw [hc1] at hx
      have hnoclamp : ¬(soc - phase1Dis cfg optimal soc item > cfg.BATTERY_ENERGY_WH) := by
        linarith
      rw [if_neg hnoclamp] at hx
      rcases hx with hx | hx
      · subst hx
        exact hres
      · exact phase1Go_profile_ge cfg optimal hmax rest
          (soc - phase1Dis cfg optimal soc item) hres (by linarith) x hx

/-- Claim C2 (amended part): for a starting charge between the minimum
reserve and the capacity, and a nonnegative rate limit, replaying the
simulator after phase 1 yields no value below the reserve, and neither does
replaying after phase 2 (which only adds grid import) when it completes. -/
theorem claim_C2 (cfg : Config) (tl : List Slot) (soc : ℚ)
    (hbuf : cfg.MIN_BATTERY_BUFFER_WH ≤ soc) (hcap : soc ≤ cfg.BATTERY_ENERGY_WH)
    (hmax : 0 ≤ cfg.MAX_BATTERY_OUTPUT_PER_QUARTER_WH) :
    (∀ x ∈ calculate_battery_profile_from_list cfg soc
        ((phase_1_peak_shaving cfg tl soc).1.map (·.grid_wh))
        (phase_1_peak_shaving cfg tl soc).1,
      cfg.MIN_BATTERY_BUFFER_WH ≤ x) ∧
    (∀ tl2, phase_2_safety_checks cfg (phase_1_peak_shaving cfg tl soc).1 soc = .ok tl2 →
      ∀ x ∈ calculate_battery_profile_from_list cfg soc (tl2.map (·.grid_wh)) tl2,
        cfg.MIN_BATTERY_BUFFER_WH ≤ x) := by
  have hopt : (phase_1_peak_shaving cfg tl soc).1 =
      (phase1Go cfg ((phase_1_peak_shaving cfg tl soc).2.1) soc tl).1 := rfl
  have hp1 : ∀ x ∈ calculate_battery_profile_from_list cfg soc
      ((phase_1_peak_shaving cfg tl soc).1.map (·.grid_wh))
      (phase_1_peak_shaving cfg tl soc).1,
      cfg.MIN_BATTERY_BUFFER_WH ≤ x := by
    rw [hopt]
    exact phase1Go_profile_ge cfg _ hmax tl soc hbuf hcap
  refine ⟨hp1, ?_⟩
  intro tl2 h2 x hx
  have hge : SlotsGE (phase_1_peak_shaving cfg tl soc).1 tl2 :=
    phase2Go_ge cfg soc hmax 10 _ tl2 h2
  obtain ⟨n, hn, hxn⟩ := List.mem_iff_getElem.mp hx
  have hlen2 : (calculate_battery_profile_from_list cfg soc (tl2.map (·.grid_wh)) tl2).length =
      tl2.length := profile_length cfg soc tl2
  have hn2 : n < tl2.length := by rw [← hlen2]; exact hn
  have hn1 : n < (phase_1_peak_shaving cfg tl soc).1.length := by rw [← hge.1]; exact hn2
  have hmono := profileGo_getD_mono cfg
    (((phase_1_peak_shaving cfg tl soc).1.map (·.grid_wh)).zip (phase_1_peak_shaving cfg tl soc).1)
    ((tl2.map (·.grid_wh)).zip tl2) soc soc le_rfl
    (by simp [List.length_zip, hge.1])
    (fun i hi => by
      have hi1 : i < (phase_1_peak_shaving cfg tl soc).1.length := by
        simpa [List.length_zip] using hi
      have hi2 : i < tl2.length := by rw [hge.1]; exact hi1
      rw [zip_getD ((phase_1_peak_shaving cfg tl soc).1.map (·.grid_wh))
            ((phase_1_peak_shaving cfg tl soc).1) i (by simpa using hi1) hi1,
          zip_getD (tl2.map (·.grid_wh)) tl2 i (by simpa using hi2) hi2]
      obtain ⟨hg, hb⟩ := hge.2 i hi1
      exact ⟨by rw [map_grid_getD _ _ hi1, map_grid_getD _ _ hi2]; exact hg, hb⟩)
    n (by simpa [List.length_zip] using hn1)
  have hx1 : cfg.MIN_BATTERY_BUFFER_WH ≤
      (calculate_battery_profile_from_list cfg soc
        ((phase_1_peak_shaving cfg tl soc).1.map (·.grid_wh))
        (phase_1_peak_shaving cfg tl soc).1).getD n 0 := by
    refine hp1 _ ?_
    have hlen1 : (calculate_battery_profile_from_list cfg soc
        ((phase_1_peak_shaving cfg tl soc).1.map (·.grid_wh))
        (phase_1_peak_shaving cfg tl soc).1).length =
        (phase_1_peak_shaving cfg tl soc).1.length := profile_length cfg soc _
    rw [getD_eq_getElem _ _ _ (by rw [hlen1]; exact hn1)]
    exact List.getElem_mem _
  have : (calculate_battery_profile_from_list cfg soc (tl2.map (·.grid_wh)) tl2).getD n 0 = x := by
    rw [getD_eq_getElem _ _ _ hn]
    exact hxn
  rw [← this]
  exact le_trans hx1 hmono

/-- Witness for C2's amended theorem on `tl_res` from 995 Wh. -/
theorem claim_C2_witness :
    (cfg_res.MIN_BATTERY_BUFFER_WH ≤ 995 ∧ (995 : ℚ) ≤ cfg_res.BATTERY_ENERGY_WH ∧
      (0 : ℚ) ≤ cfg_res.MAX_BATTERY_OUTPUT_PER_QUARTER_WH) ∧
    ((∀ x ∈ calculate_battery_profile_from_list cfg_res 995
        ((phase_1_peak_shaving cfg_res tl_res 995).1.map (·.grid_wh))
        (phase_1_peak_shaving cfg_res tl_res 995).1,
      cfg_res.MIN_BATTERY_BUFFER_WH ≤ x) ∧
    (∀ tl2, phase_2_safety_checks cfg_res (phase_1_peak_shaving cfg_res tl_res 995).1 995 =
        .ok tl2 →
      ∀ x ∈ calculate_battery_profile_from_list cfg_res 995 (tl2.map (·.grid_wh)) tl2,
        cfg_res.MIN_BATTERY_BUFFER_WH ≤ x)) :=
  ⟨⟨by norm_num [cfg_res], by norm_num [cfg_res], by norm_num [cfg_res]⟩,
    claim_C2 cfg_res tl_res 995 (by norm_num [cfg_res]) (by norm_num [cfg_res])
      (by norm_num [cfg_res])⟩

/-! ### Claim C4, amended part -/

lemma allocSet_keys (al : List (Nat × ℚ)) (k : Nat) (v : ℚ) :
    alKeys (allocSet al k v) = alKeys al := by
  unfold alKeys allocSet
  rw [List.map_map]
  refine List.map_congr_left (fun p _ => ?_)
  by_cases h : p.1 = k <;> simp [h]

lemma allocSet_not_mem (al : List (Nat × ℚ)) (k : Nat) (v : ℚ)
    (h : k ∉ alKeys al) : allocSet al k v = al := by
  induction al with
  | nil => rfl
  | cons p rest ih =>
      simp only [alKeys, List.map_cons, List.mem_cons, not_or] at h
      unfold allocSet
      simp only [List.map_cons]
      rw [if_neg (by simpa using fun hc => h.1 hc.symm)]
      have := ih (by simpa [alKeys] using h.2)
      unfold allocSet at this
      rw [this]

lemma allocGetD_cons (p : Nat × ℚ) (rest : List (Nat × ℚ)) (k : Nat) :
    allocGetD (p :: rest) k = if p.1 = k then p.2 else allocGetD rest k := by
  by_cases h : p.1 = k
  · rw [if_pos h]
    unfold allocGetD
    have hf : List.find? (fun x => x.1 == k) (p :: rest) = some p :=
      List.find?_cons_of_pos _ (by simpa using h)
    rw [hf]
    rfl
  · rw [if_neg h]
    unfold allocGetD
    have hf : List.find? (fun x => x.1 == k) (p :: rest) =
        List.find? (fun x => x.1 == k) rest :=
      List.find?_cons_of_neg _ (by simpa using h)
    rw [hf]

lemma alSum_allocSet (al : List (Nat × ℚ)) (k : Nat) (v : ℚ)
    (hnd : (alKeys al).Nodup) (hk : k ∈ alKeys al) :
    alSum (allocSet al k v) = alSum al - allocGetD al k + v := by
  induction al with
  | nil => simp [alKeys] at hk
  | cons p rest ih =>
      simp only [alKeys, List.map_cons, List.nodup_cons] at hnd
      simp only [alKeys, List.map_cons, List.mem_cons] at hk
      rw [allocGetD_cons]
      by_cases h : p.1 = k
      · have hrest : allocSet rest k v = rest :=
          allocSet_not_mem rest k v (by unfold alKeys; rw [← h]; exact hnd.1)
        rw [if_pos h]
        unfold allocSet
        simp only [List.map_cons]
        rw [if_pos (by simpa using h)]
        unfold allocSet at hrest
        rw [hrest]
        unfold alSum
        simp only [List.map_cons, List.sum_cons]
        ring
      · have hk' : k ∈ alKeys rest := by
          rcases hk with hc | hc
          · exact absurd hc.symm h
          · unfold alKeys
            exact hc
        rw [if_neg h]
        unfold allocSet
        simp only [List.map_cons]
        rw [if_neg (by simpa using h)]
        have hrec := ih hnd.2 hk'
        unfold allocSet at hrec
        unfold alSum at hrec ⊢
        simp only [List.map_cons, List.sum_cons]
        rw [hrec]
        ring

lemma sum_allocGetD_keys (al : List (Nat × ℚ)) (hnd : (alKeys al).Nodup) :
    ((alKeys al).map (allocGetD al)).sum = alSum al := by
  induction al with
  | nil => simp [alKeys, alSum]
  | cons p rest ih =>
      simp only [alKeys, List.map_cons, List.nodup_cons] at hnd
      unfold alKeys alSum
      simp only [List.map_cons, List.sum_cons]
      rw [allocGetD_cons, if_pos rfl]
      have hmap : (List.map Prod.fst rest).map (allocGetD (p :: rest)) =
          (List.map Prod.fst rest).map (allocGetD rest) := by
        refine List.map_congr_left (fun k hk => ?_)
        rw [allocGetD_cons, if_neg (fun hc => hnd.1 (by rw [hc]; exact hk))]
      have hrec := ih hnd.2
      unfold alKeys alSum at hrec
      rw [hmap, hrec]

lemma sum_allocGetD_perm (al : List (Nat × ℚ)) (idxs : List Nat)
    (hnd : (alKeys al).Nodup) (hperm : idxs.Perm (alKeys al)) :
    (idxs.map (allocGetD al)).sum = alSum al := by
  rw [List.Perm.sum_eq (List.Perm.map (allocGetD al) hperm)]
  exact sum_allocGetD_keys al hnd

lemma hourPass1_keys : ∀ (qs : List (Nat × Slot)) (budget : ℚ),
    alKeys (hourPass1 qs budget).1 = qs.map Prod.fst
  | [], _ => rfl
  | q :: rest, budget => by
      unfold hourPass1
      dsimp only
      unfold alKeys
      simp only [List.map_cons]
      have hrec := hourPass1_keys rest (budget - min budget (max 0 q.2.base_net_load_wh))
      unfold alKeys at hrec
      rw [hrec]

lemma hourPass1_sum : ∀ (qs : List (Nat × Slot)) (budget : ℚ),
    alSum (hourPass1 qs budget).1 = budget - (hourPass1 qs budget).2
  | [], budget => by simp [hourPass1, alSum]
  | q :: rest, budget => by
      unfold hourPass1
      dsimp only
      unfold alSum
      simp only [List.map_cons, List.sum_cons]
      have hrec := hourPass1_sum rest (budget - min budget (max 0 q.2.base_net_load_wh))
      unfold alSum at hrec
      rw [hrec]
      ring

lemma max0_sub_max0 (x c : ℚ) (hc : 0 ≤ c) : max 0 (max 0 x - c) = max 0 (x - c) := by
  rcases le_or_lt x 0 with h | h
  · rw [max_eq_left h, max_eq_left (by linarith), max_eq_left (by linarith)]
  · rw [max_eq_right h.le]

lemma sum_max0_nonneg (qs : List (Nat × Slot)) :
    0 ≤ (qs.map (fun q => max 0 q.2.base_net_load_wh)).sum := by
  induction qs with
  | nil => simp
  | cons q rest ih =>
      simp only [List.map_cons, List.sum_cons]
      have := le_max_left (0 : ℚ) q.2.base_net_load_wh
      linarith

lemma hourPass1_rem : ∀ (qs : List (Nat × Slot)) (budget : ℚ), 0 ≤ budget →
    (hourPass1 qs budget).2 =
      max 0 (budget - (qs.map (fun q => max 0 q.2.base_net_load_wh)).sum)
  | [], budget, hb => by
      simp only [hourPass1, List.map_nil, List.sum_nil, sub_zero]
      exact (max_eq_right hb).symm
  | q :: rest, budget, hb => by
      unfold hourPass1
      dsimp only
      have hbmt : budget - min budget (max 0 q.2.base_net_load_wh) =
          max 0 (budget - max 0 q.2.base_net_load_wh) := by
        rcases le_total budget (max 0 q.2.base_net_load_wh) with h | h
        · have h0 : max 0 (budget - max 0 q.2.base_net_load_wh) = 0 :=
            max_eq_left (by linarith)
          rw [min_eq_left h, h0, sub_self]
        · have h0 : max 0 (budget - max 0 q.2.base_net_load_wh) =
              budget - max 0 q.2.base_net_load_wh := max_eq_right (by linarith)
          rw [min_eq_right h, h0]
      have hrec := hourPass1_rem rest (budget - min budget (max 0 q.2.base_net_load_wh))
        (by rw [hbmt]; exact le_max_left _ _)
      rw [hrec, hbmt, max0_sub_max0 _ _ (sum_max0_nonneg rest)]
      simp only [List.map_cons, List.sum_cons]
      congr 1
      ring

lemma hourPass2Step_keys (cfg : Config) (al : List (Nat × ℚ)) (rem : ℚ)
    (q : Nat × Slot) : alKeys (hourPass2Step cfg al rem q).1 = alKeys al := by
  unfold hourPass2Step
  dsimp only
  split
  · exact allocSet_keys al q.1 _
  · rfl

lemma hourPass2Step_sum (cfg : Config) (al : List (Nat × ℚ)) (rem : ℚ)
    (q : Nat × Slot) (hnd : (alKeys al).Nodup) (hq : q.1 ∈ alKeys al) :
    alSum (hourPass2Step cfg al rem q).1 =
      alSum al + (rem - (hourPass2Step cfg al rem q).2) := by
  unfold hourPass2Step
  dsimp only
  split
  · dsimp only
    rw [alSum_allocSet al q.1 _ hnd hq]
    ring
  · dsimp only
    ring

lemma hourPass2Step_rem_nonneg (cfg : Config) (al : List (Nat × ℚ)) (rem : ℚ)
    (q : Nat × Slot) (h : 0 ≤ rem) : 0 ≤ (hourPass2Step cfg al rem q).2 := by
  unfold hourPass2Step
  dsimp only
  split
  · dsimp only
    have := min_le_left rem ((q.2.base_net_load_wh +
      cfg.MAX_BATTERY_OUTPUT_PER_QUARTER_WH) - allocGetD al q.1)
    linarith
  · exact h

lemma hourPass2_keys (cfg : Config) :
    ∀ (qs : List (Nat × Slot)) (st : List (Nat × ℚ) × ℚ),
      alKeys (hourPass2 cfg st qs).1 = alKeys st.1
  | [], _ => rfl
  | q :: rest, (al, rem) => by
      unfold hourPass2
      dsimp only
      split
      · exact hourPass2Step_keys cfg al rem q
      · rw [hourPass2_keys cfg rest _, hourPass2Step_keys cfg al rem q]

lemma hourPass2_sum (cfg : Config) :
    ∀ (qs : List (Nat × Slot)) (st : List (Nat × ℚ) × ℚ),
      (alKeys st.1).Nodup → (∀ q ∈ qs, q.1 ∈ alKeys st.1) →
      alSum (hourPass2 cfg st qs).1 = alSum st.1 + (st.2 - (hourPass2 cfg st qs).2)
  | [], st, _, _ => by simp [hourPass2]
  | q :: rest, (al, rem), hnd, hks => by
      unfold hourPass2
      dsimp only
      have hstep := hourPass2Step_sum cfg al rem q hnd (hks q (by simp))
      have hkeys := hourPass2Step_keys cfg al rem q
      split
      · exact hstep
      · have hrec := hourPass2_sum cfg rest (hourPass2Step cfg al rem q)
          (by rw [hkeys]; exact hnd)
          (fun p hp => by rw [hkeys]; exact hks p (by simp [hp]))
        rw [hrec, hstep]
        ring

lemma hourPass2_rem_nonneg (cfg : Config) :
    ∀ (qs : List (Nat × Slot)) (st : List (Nat × ℚ) × ℚ),
      0 ≤ st.2 → 0 ≤ (hourPass2 cfg st qs).2
  | [], _, h => h
  | q :: rest, (al, rem), h => by
      unfold hourPass2
      dsimp only
      have hstep := hourPass2Step_rem_nonneg cfg al rem q h
      split
      · exact hstep
      · exact hourPass2_rem_nonneg cfg rest _ hstep

lemma hourIndicesOf_nodup (tl : List Slot) (h : Nat) : (hourIndicesOf tl h).Nodup :=
  List.Nodup.filter _ (List.nodup_range tl.length)

lemma mem_hourIndicesOf (tl : List Slot) (h : Nat) (i : Nat) :
    i ∈ hourIndicesOf tl h ↔ i < tl.length ∧ (tl.getD i default).hour = h := by
  unfold hourIndicesOf
  simp [List.mem_filter, List.mem_range]

lemma hourIndicesOf_congr (tlA tlB : List Slot) (hsh : ShapeEq tlA tlB) (h : Nat) :
    hourIndicesOf tlB h = hourIndicesOf tlA h := by
  unfold hourIndicesOf
  rw [hsh.1]
  refine List.filter_congr (fun i hi => ?_)
  simp only [(hsh.2 i (List.mem_range.mp hi)).1]

lemma hourCap_congr (tlA tlB : List Slot) (hsh : ShapeEq tlA tlB) (h : Nat) :
    hourCap tlB h = hourCap tlA h := by
  unfold hourCap
  rw [hourIndicesOf_congr tlA tlB hsh h]
  refine congrArg List.sum (List.map_congr_left (fun i hi => ?_))
  have hm := (mem_hourIndicesOf tlA h i).mp hi
  rw [(hsh.2 i hm.1).2.1]

lemma shapeEq_refl (tl : List Slot) : ShapeEq tl tl :=
  ⟨rfl, fun _ _ => ⟨rfl, rfl, rfl⟩⟩

lemma shapeEq_trans {tlA tlB tlC : List Slot}
    (h1 : ShapeEq tlA tlB) (h2 : ShapeEq tlB tlC) : ShapeEq tlA tlC := by
  refine ⟨h2.1.trans h1.1, fun i hi => ?_⟩
  have hb := h1.2 i hi
  have hc := h2.2 i (by rw [h1.1]; exact hi)
  exact ⟨hc.1.trans hb.1, hc.2.1.trans hb.2.1, hc.2.2.trans hb.2.2⟩

lemma applyAlloc_length (cfg : Config) (alloc : List (Nat × ℚ)) (t : List Slot)
    (i : Nat) : (applyAlloc cfg alloc t i).length = t.length := by
  simp [applyAlloc]

lemma applyAlloc_getD_ne (cfg : Config) (alloc : List (Nat × ℚ)) (t : List Slot)
    (i j : Nat) (hne : i ≠ j) :
    (applyAlloc cfg alloc t i).getD j default = t.getD j default := by
  unfold applyAlloc
  rw [getD_set]
  simp [hne]

lemma applyAlloc_getD_self (cfg : Config) (alloc : List (Nat × ℚ)) (t : List Slot)
    (i : Nat) (hi : i < t.length) :
    (applyAlloc cfg alloc t i).getD i default =
      { t.getD i default with
        grid_wh := allocGetD alloc i - cfg.BIAS_WH_PER_QUARTER } := by
  unfold applyAlloc
  rw [getD_set]
  simp [hi]

lemma foldl_applyAlloc_length (cfg : Config) (alloc : List (Nat × ℚ)) :
    ∀ (idxs : List Nat) (t : List Slot),
      (idxs.foldl (applyAlloc cfg alloc) t).length = t.length
  | [], _ => rfl
  | i :: rest, t => by
      simp only [List.foldl_cons]
      rw [foldl_applyAlloc_length cfg alloc rest _, applyAlloc_length]

lemma foldl_applyAlloc_getD_not_mem (cfg : Config) (alloc : List (Nat × ℚ)) :
    ∀ (idxs : List Nat) (t : List Slot) (j : Nat), j ∉ idxs →
      (idxs.foldl (applyAlloc cfg alloc) t).getD j default = t.getD j default
  | [], _, _, _ => rfl
  | i :: rest, t, j, hj => by
      simp only [List.mem_cons, not_or] at hj
      simp only [List.foldl_cons]
      rw [foldl_applyAlloc_getD_not_mem cfg alloc rest _ j hj.2,
        applyAlloc_getD_ne cfg alloc t i j (fun hc => hj.1 hc.symm)]

lemma foldl_applyAlloc_getD_mem (cfg : Config) (alloc : List (Nat × ℚ)) :
    ∀ (idxs : List Nat) (t : List Slot) (j : Nat),
      idxs.Nodup → j ∈ idxs → j < t.length →
      (idxs.foldl (applyAlloc cfg alloc) t).getD j default =
        { t.getD j default with
          grid_wh := allocGetD alloc j - cfg.BIAS_WH_PER_QUARTER }
  | [], _, _, _, hj, _ => absurd hj (List.not_mem_nil _)
  | i :: rest, t, j, hnd, hj, hlen => by
      simp only [List.nodup_cons] at hnd
      simp only [List.foldl_cons]
      rcases List.mem_cons.mp hj with hc | hc
      · subst hc
        rw [foldl_applyAlloc_getD_not_mem cfg alloc rest _ j hnd.1,
          applyAlloc_getD_self cfg alloc t j hlen]
      · rw [foldl_applyAlloc_getD_mem cfg alloc rest _ j hnd.2 hc
            (by rw [applyAlloc_length]; exact hlen),
          applyAlloc_getD_ne cfg alloc t i j (fun he => hnd.1 (by rw [he]; exact hc))]

lemma quarters_map_fst (tl : List Slot) (hour : Nat) :
    (((hourIndicesOf tl hour).map (fun i => (i, tl.getD i default))).map Prod.fst)
      = hourIndicesOf tl hour := by
  rw [List.map_map]
  simp [Function.comp_def]

lemma alKeys_hourAllocOf (cfg : Config) (tl : List Slot) (hour : Nat) :
    (alKeys (hourAllocOf cfg tl hour)).Perm (hourIndicesOf tl hour) := by
  have hqperm := List.perm_insertionSort (fun a b => a.2.price ≤ b.2.price)
    ((hourIndicesOf tl hour).map (fun i => (i, tl.getD i default)))
  have h1 := hqperm.map Prod.fst
  rw [quarters_map_fst] at h1
  unfold hourAllocOf
  dsimp only
  split
  · rw [hourPass2_keys cfg _ _, hourPass1_keys]
    exact h1
  · rw [hourPass1_keys]
    exact h1

lemma hourTentative_shape (cfg : Config) (tl : List Slot) (hour : Nat) :
    ShapeEq tl (hourTentative cfg tl hour) := by
  unfold hourTentative
  refine ⟨foldl_applyAlloc_length cfg _ _ tl, fun i hi => ?_⟩
  by_cases hmem : i ∈ hourIndicesOf tl hour
  · rw [foldl_applyAlloc_getD_mem cfg _ _ tl i (hourIndicesOf_nodup tl hour) hmem hi]
    exact ⟨rfl, rfl, rfl⟩
  · rw [foldl_applyAlloc_getD_not_mem cfg _ _ tl i hmem]
    exact ⟨rfl, rfl, rfl⟩

lemma hourTentative_getD_not_mem (cfg : Config) (tl : List Slot) (hour j : Nat)
    (hj : j ∉ hourIndicesOf tl hour) :
    (hourTentative cfg tl hour).getD j default = tl.getD j default := by
  unfold hourTentative
  exact foldl_applyAlloc_getD_not_mem cfg _ _ tl j hj

lemma hourTentative_getD_mem (cfg : Config) (tl : List Slot) (hour j : Nat)
    (hj : j ∈ hourIndicesOf tl hour) :
    (hourTentative cfg tl hour).getD j default =
      { tl.getD j default with
        grid_wh := allocGetD (hourAllocOf cfg tl hour) j - cfg.BIAS_WH_PER_QUARTER } := by
  unfold hourTentative
  exact foldl_applyAlloc_getD_mem cfg _ _ tl j (hourIndicesOf_nodup tl hour) hj
    ((mem_hourIndicesOf tl hour j).mp hj).1

lemma hourAgg_hourTentative (cfg : Config) (tl : List Slot) (hour : Nat) :
    hourAgg cfg (hourTentative cfg tl hour) hour = alSum (hourAllocOf cfg tl hour) := by
  unfold hourAgg
  rw [hourIndicesOf_congr tl _ (hourTentative_shape cfg tl hour) hour]
  have hmap : (hourIndicesOf tl hour).map
      (fun i => ((hourTentative cfg tl hour).getD i default).grid_wh +
        cfg.BIAS_WH_PER_QUARTER)
      = (hourIndicesOf tl hour).map (allocGetD (hourAllocOf cfg tl hour)) := by
    refine List.map_congr_left (fun i hi => ?_)
    rw [hourTentative_getD_mem cfg tl hour i hi]
    dsimp only
    ring
  rw [hmap]
  have hperm := alKeys_hourAllocOf cfg tl hour
  exact sum_allocGetD_perm _ _
    (hperm.nodup_iff.mpr (hourIndicesOf_nodup tl hour)) hperm.symm

lemma hourTotal_eq_hourAgg (cfg : Config) (tl : List Slot) (hour : Nat) :
    (((hourIndicesOf tl hour).map (fun i => (i, tl.getD i default))).map
      (fun q => q.2.grid_wh + cfg.BIAS_WH_PER_QUARTER)).sum = hourAgg cfg tl hour := by
  rw [List.map_map]
  unfold hourAgg
  simp [Function.comp_def]

lemma allocCore_sum (cfg : Config) (qs : List (Nat × Slot)) (budget : ℚ)
    (hpos : 0 < budget) (hnd : (qs.map Prod.fst).Nodup) :
    alSum (if (hourPass1 qs budget).2 > 0
           then (hourPass2 cfg (hourPass1 qs budget) qs).1
           else (hourPass1 qs budget).1) ≤ budget ∧
    (budget ≤ (qs.map (fun q => max 0 q.2.base_net_load_wh)).sum →
      alSum (if (hourPass1 qs budget).2 > 0
             then (hourPass2 cfg (hourPass1 qs budget) qs).1
             else (hourPass1 qs budget).1) = budget) := by
  have hs1 := hourPass1_sum qs budget
  have hrem := hourPass1_rem qs budget (le_of_lt hpos)
  by_cases hp : (hourPass1 qs budget).2 > 0
  · simp only [if_pos hp]
    have hnd1 : (alKeys (hourPass1 qs budget).1).Nodup := by
      rw [hourPass1_keys]
      exact hnd
    have hks1 : ∀ q ∈ qs, q.1 ∈ alKeys (hourPass1 qs budget).1 := by
      intro q hq
      rw [hourPass1_keys]
      exact List.mem_map_of_mem _ hq
    have hs2 := hourPass2_sum cfg qs (hourPass1 qs budget) hnd1 hks1
    have hrem2 := hourPass2_rem_nonneg cfg qs (hourPass1 qs budget) (le_of_lt hp)
    constructor
    · rw [hs2, hs1]
      linarith
    · intro hcap
      rw [hrem] at hp
      have hle : budget - (qs.map (fun q => max 0 q.2.base_net_load_wh)).sum ≤ 0 := by
        linarith
      rw [max_eq_left hle] at hp
      exact absurd hp (lt_irrefl 0)
  · simp only [if_neg hp]
    have hge : 0 ≤ (hourPass1 qs budget).2 := by
      rw [hrem]
      exact le_max_left _ _
    have heq : (hourPass1 qs budget).2 = 0 := le_antisymm (not_lt.mp hp) hge
    rw [hs1, heq, sub_zero]
    exact ⟨le_rfl, fun _ => rfl⟩

lemma alSum_hourAllocOf (cfg : Config) (tl : List Slot) (hour : Nat)
    (hpos : 0 < hourAgg cfg tl hour) :
    alSum (hourAllocOf cfg tl hour) ≤ hourAgg cfg tl hour ∧
    (hourAgg cfg tl hour ≤ hourCap tl hour →
      alSum (hourAllocOf cfg tl hour) = hourAgg cfg tl hour) := by
  have htot := hourTotal_eq_hourAgg cfg tl hour
  have hdef : hourAllocOf cfg tl hour =
      (if (hourPass1 (List.insertionSort (fun a b => a.2.price ≤ b.2.price)
            ((hourIndicesOf tl hour).map (fun i => (i, tl.getD i default))))
            (hourAgg cfg tl hour)).2 > 0
       then (hourPass2 cfg
              (hourPass1 (List.insertionSort (fun a b => a.2.price ≤ b.2.price)
                ((hourIndicesOf tl hour).map (fun i => (i, tl.getD i default))))
                (hourAgg cfg tl hour))
              (List.insertionSort (fun a b => a.2.price ≤ b.2.price)
                ((hourIndicesOf tl hour).map (fun i => (i, tl.getD i default))))).1
       else (hourPass1 (List.insertionSort (fun a b => a.2.price ≤ b.2.price)
              ((hourIndicesOf tl hour).map (fun i => (i, tl.getD i default))))
              (hourAgg cfg tl hour)).1) := by
    unfold hourAllocOf
    dsimp only
    rw [htot]
  have hqperm := List.perm_insertionSort (fun a b => a.2.price ≤ b.2.price)
    ((hourIndicesOf tl hour).map (fun i => (i, tl.getD i default)))
  have hnd : ((List.insertionSort (fun a b => a.2.price ≤ b.2.price)
      ((hourIndicesOf tl hour).map (fun i => (i, tl.getD i default)))).map
        Prod.fst).Nodup := by
    have h1 := (hqperm.map Prod.fst).nodup_iff
    rw [quarters_map_fst] at h1
    exact h1.mpr (hourIndicesOf_nodup tl hour)
  have hcap : ((List.insertionSort (fun a b => a.2.price ≤ b.2.price)
      ((hourIndicesOf tl hour).map (fun i => (i, tl.getD i default)))).map
        (fun q => max 0 q.2.base_net_load_wh)).sum = hourCap tl hour := by
    rw [List.Perm.sum_eq (hqperm.map (fun q => max 0 q.2.base_net_load_wh))]
    rw [List.map_map]
    unfold hourCap
    simp [Function.comp_def]
  have hcore := allocCore_sum cfg (List.insertionSort (fun a b => a.2.price ≤ b.2.price)
    ((hourIndicesOf tl hour).map (fun i => (i, tl.getD i default))))
    (hourAgg cfg tl hour) hpos hnd
  rw [hdef]
  exact ⟨hcore.1, fun hc => hcore.2 (by rw [hcap]; exact hc)⟩

lemma processHour_shape (cfg : Config) (st : List Slot × ℚ) (hour : Nat) :
    ShapeEq st.1 (processHour cfg st hour).1 := by
  unfold processHour
  dsimp only
  split
  · exact shapeEq_refl _
  · split
    · exact shapeEq_refl _
    · split
      · exact hourTentative_shape cfg st.1 hour
      · exact shapeEq_refl _

lemma processHour_agg_other (cfg : Config) (st : List Slot × ℚ) (hour h : Nat)
    (hne : h ≠ hour) :
    hourAgg cfg (processHour cfg st hour).1 h = hourAgg cfg st.1 h := by
  unfold processHour
  dsimp only
  split
  · rfl
  · split
    · rfl
    · split
      · dsimp only
        unfold hourAgg
        rw [hourIndicesOf_congr st.1 _ (hourTentative_shape cfg st.1 hour) h]
        refine congrArg List.sum (List.map_congr_left (fun i hi => ?_))
        have hm := (mem_hourIndicesOf st.1 h i).mp hi
        have hnotmem : i ∉ hourIndicesOf st.1 hour := by
          intro hc
          have h1 := ((mem_hourIndicesOf st.1 hour i).mp hc).2
          exact hne (hm.2 ▸ h1)
        rw [hourTentative_getD_not_mem cfg st.1 hour i hnotmem]
      · rfl

lemma processHour_agg_own (cfg : Config) (st : List Slot × ℚ) (hour : Nat) :
    hourAgg cfg (processHour cfg st hour).1 hour ≤ hourAgg cfg st.1 hour ∧
    (hourAgg cfg st.1 hour ≤ hourCap st.1 hour →
      hourAgg cfg (processHour cfg st hour).1 hour = hourAgg cfg st.1 hour) := by
  unfold processHour
  dsimp only
  split
  · exact ⟨le_rfl, fun _ => rfl⟩
  · split
    · exact ⟨le_rfl, fun _ => rfl⟩
    · split
      · rename_i hind htot hval
        have hpos : 0 < hourAgg cfg st.1 hour := by
          rw [hourTotal_eq_hourAgg cfg st.1 hour] at htot
          exact not_le.mp htot
        have hagg := hourAgg_hourTentative cfg st.1 hour
        have hsum := alSum_hourAllocOf cfg st.1 hour hpos
        constructor
        · dsimp only
          rw [hagg]
          exact hsum.1
        · intro hc
          dsimp only
          rw [hagg]
          exact hsum.2 hc
      · exact ⟨le_rfl, fun _ => rfl⟩

lemma foldl_processHour_agg (cfg : Config) (tl : List Slot) (h : Nat) :
    ∀ (hours : List Nat) (st : List Slot × ℚ),
      ShapeEq tl st.1 →
      hourAgg cfg st.1 h ≤ hourAgg cfg tl h →
      (hourAgg cfg tl h ≤ hourCap tl h → hourAgg cfg st.1 h = hourAgg cfg tl h) →
      ShapeEq tl (hours.foldl (processHour cfg) st).1 ∧
      hourAgg cfg (hours.foldl (processHour cfg) st).1 h ≤ hourAgg cfg tl h ∧
      (hourAgg cfg tl h ≤ hourCap tl h →
        hourAgg cfg (hours.foldl (processHour cfg) st).1 h = hourAgg cfg tl h)
  | [], _, hsh, hle, heq => ⟨hsh, hle, heq⟩
  | hr :: rest, st, hsh, hle, heq => by
      simp only [List.foldl_cons]
      have hsh' : ShapeEq tl (processHour cfg st hr).1 :=
        shapeEq_trans hsh (processHour_shape cfg st hr)
      by_cases hcase : h = hr
      · subst hcase
        have hown := processHour_agg_own cfg st h
        refine foldl_processHour_agg cfg tl h rest _ hsh' (le_trans hown.1 hle) ?_
        intro hc
        have h1 : hourAgg cfg st.1 h = hourAgg cfg tl h := heq hc
        have h2 : hourAgg cfg st.1 h ≤ hourCap st.1 h := by
          rw [h1, hourCap_congr tl st.1 hsh]
          exact hc
        rw [hown.2 h2, h1]
      · have hoth := processHour_agg_other cfg st hr h hcase
        exact foldl_processHour_agg cfg tl h rest _ hsh'
          (by rw [hoth]; exact hle) (fun hc => hoth.trans (heq hc))

/-- C4 (amended): the Intra-Hour Reallocator never increases an hour's
aggregate grid-import volume (the sum of `grid_wh + bias` over the hour's
slots), and leaves it exactly unchanged whenever that aggregate is at most
the hour's load-driven absorption capacity `hourCap` (the sum of
`max 0 base_net_load_wh` over its slots).  The spec's blanket claim that the
phase "never changes the total energy balance of an hour" fails when the
aggregate exceeds what the hour's slots can absorb: pass 2 stops at
`base + max rate` per slot and the remaining budget is silently dropped
(refuted separately by the counterexample). -/
theorem claim_C4 (cfg : Config) (tl : List Slot) (soc : ℚ) (h : Nat) :
    hourAgg cfg (phase_optimize_within_hours cfg tl soc).1 h ≤ hourAgg cfg tl h ∧
    (hourAgg cfg tl h ≤ hourCap tl h →
      hourAgg cfg (phase_optimize_within_hours cfg tl soc).1 h = hourAgg cfg tl h) := by
  have hfold := foldl_processHour_agg cfg tl h (unique_hours tl) (tl, soc)
    (shapeEq_refl tl) le_rfl (fun _ => rfl)
  exact ⟨hfold.2.1, hfold.2.2⟩

/-- Witness for C4: a one-slot hour importing 500 Wh against a 600 Wh
absorption capacity keeps its aggregate import exactly. -/
theorem claim_C4_witness :
    hourAgg cfg_hour (phase_optimize_within_hours cfg_hour tl_hw 1000).1 0 ≤
      hourAgg cfg_hour tl_hw 0 ∧
    hourAgg cfg_hour (phase_optimize_within_hours cfg_hour tl_hw 1000).1 0 =
      hourAgg cfg_hour tl_hw 0 :=
  ⟨(claim_C4 cfg_hour tl_hw 1000 0).1,
   (claim_C4 cfg_hour tl_hw 1000 0).2 (by with_unfolding_all decide)⟩

/-! ### Claim C8, amended part: dictionary lemmas for the hourly-usage map -/

lemma usageGetD_cons (p : Nat × ℚ) (rest : UsageMap) (h : Nat) :
    usageGetD (p :: rest) h = if p.1 = h then p.2 else usageGetD rest h :=
  allocGetD_cons p rest h

lemma usageGetD_map_ne (w : Nat × ℚ → ℚ) (k h : Nat) (hne : k ≠ h) :
    ∀ u : UsageMap,
      usageGetD (u.map (fun p => if p.1 == k then (p.1, w p) else p)) h = usageGetD u h
  | [] => rfl
  | p :: rest => by
      simp only [List.map_cons]
      by_cases hpk : p.1 = k
      · rw [if_pos (by simpa using hpk)]
        rw [usageGetD_cons, usageGetD_cons]
        dsimp only
        have hph : ¬ p.1 = h := by rw [hpk]; exact hne
        rw [if_neg hph, if_neg hph]
        exact usageGetD_map_ne w k h hne rest
      · rw [if_neg (by simpa using hpk)]
        rw [usageGetD_cons, usageGetD_cons]
        by_cases hph : p.1 = h
        · rw [if_pos hph, if_pos hph]
        · rw [if_neg hph, if_neg hph]
          exact usageGetD_map_ne w k h hne rest

lemma usageGetD_map_self (w : Nat × ℚ → ℚ) (k : Nat) :
    ∀ u : UsageMap, (u.find? (fun p => p.1 == k)).isSome = true →
      usageGetD (u.map (fun p => if p.1 == k then (p.1, w p) else p)) k =
        w (k, usageGetD u k)
  | [], hs => by simp [List.find?] at hs
  | (p1, p2) :: rest, hs => by
      simp only [List.map_cons]
      by_cases hpk : p1 = k
      · rw [if_pos (by simpa using hpk)]
        rw [usageGetD_cons]
        dsimp only
        rw [if_pos hpk, usageGetD_cons]
        dsimp only
        rw [if_pos hpk, hpk]
      · rw [if_neg (by simpa using hpk)]
        rw [usageGetD_cons]
        dsimp only
        rw [if_neg hpk, usageGetD_cons]
        dsimp only
        rw [if_neg hpk]
        have hs' : (rest.find? (fun p => p.1 == k)).isSome = true := by
          rw [List.find?_cons_of_neg _ (by simpa using hpk)] at hs
          exact hs
        exact usageGetD_map_self w k rest hs'

lemma usageGetD_addExisting (u : UsageMap) (k : Nat) (dv : ℚ) (u' : UsageMap)
    (hok : usageAddExisting u k dv = .ok u') (h : Nat) :
    usageGetD u' h = usageGetD u h + (if k = h then dv else 0) := by
  unfold usageAddExisting at hok
  by_cases hs : (u.find? (fun p => p.1 == k)).isSome = true
  · rw [if_pos hs] at hok
    have hu' : u' = u.map (fun p => if p.1 == k then (p.1, p.2 + dv) else p) :=
      (Except.ok.inj hok).symm
    subst hu'
    by_cases hkh : k = h
    · subst hkh
      rw [usageGetD_map_self (fun p => p.2 + dv) k u hs]
      dsimp only
      rw [if_pos rfl]
    · rw [usageGetD_map_ne (fun p => p.2 + dv) k h hkh u, if_neg hkh, add_zero]
  · rw [if_neg hs] at hok
    simp at hok

lemma usageGetD_append_single : ∀ (u : UsageMap) (k : Nat) (v : ℚ) (h : Nat),
    ¬ (u.find? (fun p => p.1 == k)).isSome = true →
    usageGetD (u ++ [(k, v)]) h = if k = h then v else usageGetD u h
  | [], k, v, h, _ => by
      simp only [List.nil_append]
      rw [usageGetD_cons]
  | p :: rest, k, v, h, hs => by
      simp only [List.cons_append]
      rw [usageGetD_cons, usageGetD_cons]
      have hpk : ¬ p.1 = k := by
        intro hc
        exact hs (by rw [List.find?_cons_of_pos _ (by simpa using hc)]; rfl)
      have hs' : ¬ (rest.find? (fun p => p.1 == k)).isSome = true := by
        intro hc
        exact hs (by rw [List.find?_cons_of_neg _ (by simpa using hpk)]; exact hc)
      by_cases hph : p.1 = h
      · rw [if_pos hph, if_pos hph,
          if_neg (fun hkh => hpk (hph.trans hkh.symm))]
      · rw [if_neg hph, if_neg hph]
        exact usageGetD_append_single rest k v h hs'

lemma usageGetD_upsert (u : UsageMap) (k : Nat) (v : ℚ) (h : Nat) :
    usageGetD (usageUpsert u k v) h = if k = h then v else usageGetD u h := by
  unfold usageUpsert
  by_cases hs : (u.find? (fun p => p.1 == k)).isSome = true
  · rw [if_pos hs]
    by_cases hkh : k = h
    · subst hkh
      rw [usageGetD_map_self (fun _ => v) k u hs, if_pos rfl]
    · rw [usageGetD_map_ne (fun _ => v) k h hkh u, if_neg hkh]
  · rw [if_neg hs]
    exact usageGetD_append_single u k v h hs

lemma usageHas_of_ne_zero (u : UsageMap) (h : Nat) (hne : usageGetD u h ≠ 0) :
    (u.find? (fun p => p.1 == h)).isSome = true := by
  unfold usageGetD at hne
  cases hf : u.find? (fun p => p.1 == h) with
  | none => rw [hf] at hne; simp at hne
  | some p => rfl

lemma usage_fold (cfg : Config) : ∀ (tl : List Slot) (u : UsageMap) (h : Nat),
    usageGetD (tl.foldl (fun u x =>
      let g := x.grid_wh + cfg.BIAS_WH_PER_QUARTER
      if g > 0 then usageUpsert u x.hour (usageGetD u x.hour + g) else u) u) h =
    usageGetD u h +
      ((tl.filter (fun s => s.hour == h &&
          decide (s.grid_wh + cfg.BIAS_WH_PER_QUARTER > 0))).map
        (fun s => s.grid_wh + cfg.BIAS_WH_PER_QUARTER)).sum
  | [], u, h => by simp
  | x :: rest, u, h => by
      simp only [List.foldl_cons, List.filter_cons]
      by_cases hg : x.grid_wh + cfg.BIAS_WH_PER_QUARTER > 0
      · rw [if_pos hg]
        rw [usage_fold cfg rest (usageUpsert u x.hour
          (usageGetD u x.hour + (x.grid_wh + cfg.BIAS_WH_PER_QUARTER))) h]
        rw [usageGetD_upsert]
        by_cases hxh : x.hour = h
        · rw [if_pos hxh]
          rw [if_pos (by simp [hxh, hg])]
          simp only [List.map_cons, List.sum_cons]
          rw [hxh]
          ring
        · rw [if_neg hxh]
          rw [if_neg (by simp [hxh])]
      · rw [if_neg hg]
        rw [if_neg (by simp [hg])]
        exact usage_fold cfg rest u h

lemma sum_over_hour_indices (p : Slot → Bool) (f : Slot → ℚ) :
    ∀ tl : List Slot,
      (((List.range tl.length).filter (fun i => p (tl.getD i default))).map
        (fun i => f (tl.getD i default))).sum = ((tl.filter p).map f).sum
  | [] => by simp
  | x :: rest => by
      have hrec := sum_over_hour_indices p f rest
      rw [show (x :: rest).length = rest.length + 1 from rfl, List.range_succ_eq_map,
        List.filter_cons, List.filter_cons]
      simp only [List.getD_cons_zero, List.filter_map, List.map_map,
        Function.comp_def, Nat.succ_eq_add_one, List.getD_cons_succ]
      by_cases hx : p x = true
      · rw [if_pos hx, if_pos hx]
        simp only [List.map_cons, List.sum_cons, List.map_map, Function.comp_def,
          Nat.succ_eq_add_one, List.getD_cons_succ, List.getD_cons_zero]
        rw [hrec]
      · rw [if_neg hx, if_neg hx]
        simp only [List.map_map, Function.comp_def, Nat.succ_eq_add_one,
          List.getD_cons_succ]
        exact hrec

lemma hourAgg_eq_filter_sum (cfg : Config) (tl : List Slot) (h : Nat) :
    hourAgg cfg tl h = ((tl.filter (fun s => s.hour == h)).map
      (fun s => s.grid_wh + cfg.BIAS_WH_PER_QUARTER)).sum := by
  unfold hourAgg hourIndicesOf
  exact sum_over_hour_indices (fun s => s.hour == h)
    (fun s => s.grid_wh + cfg.BIAS_WH_PER_QUARTER) tl

lemma usageGetD_usage_map (cfg : Config) (tl : List Slot)
    (hpos : ∀ s ∈ tl, 0 < s.grid_wh + cfg.BIAS_WH_PER_QUARTER) (h : Nat) :
    usageGetD (get_hourly_usage_map cfg tl) h = hourAgg cfg tl h := by
  unfold get_hourly_usage_map
  rw [usage_fold cfg tl [] h]
  have hfe : tl.filter (fun s => s.hour == h &&
      decide (s.grid_wh + cfg.BIAS_WH_PER_QUARTER > 0)) =
      tl.filter (fun s => s.hour == h) := by
    refine List.filter_congr (fun s hs => ?_)
    simp [hpos s hs]
  rw [hfe, ← hourAgg_eq_filter_sum]
  simp [usageGetD]

lemma shapeEq_set_grid (tl : List Slot) (c : Nat) (v : ℚ) :
    ShapeEq tl (tl.set c { tl.getD c default with grid_wh := v }) := by
  refine ⟨by simp, fun i hi => ?_⟩
  rw [getD_set]
  by_cases hcase : c = i ∧ c < tl.length
  · rw [if_pos hcase]
    rcases hcase with ⟨hci, _⟩
    subst hci
    exact ⟨rfl, rfl, rfl⟩
  · rw [if_neg hcase]
    exact ⟨rfl, rfl, rfl⟩

lemma sum_map_update (f g : Nat → ℚ) : ∀ (idxs : List Nat) (c : Nat), idxs.Nodup →
    c ∈ idxs → (∀ j ∈ idxs, j ≠ c → g j = f j) →
    (idxs.map g).sum = (idxs.map f).sum + (g c - f c)
  | [], c, _, hc, _ => absurd hc (List.not_mem_nil c)
  | i :: rest, c, hnd, hc, hfg => by
      simp only [List.nodup_cons] at hnd
      simp only [List.map_cons, List.sum_cons]
      rcases List.mem_cons.mp hc with hic | hic
      · subst hic
        have hrest : rest.map g = rest.map f :=
          List.map_congr_left (fun j hj => hfg j (by simp [hj])
            (fun he => hnd.1 (he ▸ hj)))
        rw [hrest]
        ring
      · have hgi : g i = f i := hfg i (by simp) (fun he => hnd.1 (by rw [he]; exact hic))
        rw [hgi, sum_map_update f g rest c hnd.2 hic
          (fun j hj hne => hfg j (by simp [hj]) hne)]
        ring

lemma hourAgg_set_grid (cfg : Config) (tl : List Slot) (c : Nat) (hc : c < tl.length)
    (v : ℚ) (h : Nat) :
    hourAgg cfg (tl.set c { tl.getD c default with grid_wh := v }) h =
      hourAgg cfg tl h + (if (tl.getD c default).hour = h
        then v - (tl.getD c default).grid_wh else 0) := by
  have hsh := shapeEq_set_grid tl c v
  unfold hourAgg
  rw [hourIndicesOf_congr tl _ hsh h]
  by_cases hh : (tl.getD c default).hour = h
  · rw [if_pos hh]
    have hcmem : c ∈ hourIndicesOf tl h := (mem_hourIndicesOf tl h c).mpr ⟨hc, hh⟩
    rw [sum_map_update (fun i => (tl.getD i default).grid_wh + cfg.BIAS_WH_PER_QUARTER)
      (fun i => (((tl.set c { tl.getD c default with grid_wh := v }).getD i
        default).grid_wh + cfg.BIAS_WH_PER_QUARTER))
      (hourIndicesOf tl h) c (hourIndicesOf_nodup tl h) hcmem
      (fun j _ hne => by
        dsimp only
        rw [getD_set, if_neg (fun hcj => hne hcj.1.symm)])]
    rw [getD_set, if_pos ⟨rfl, hc⟩]
    dsimp only
    ring
  · rw [if_neg hh, add_zero]
    refine congrArg List.sum (List.map_congr_left (fun j hj => ?_))
    have hjne : ¬ (c = j ∧ c < tl.length) := by
      rintro ⟨hcj, _⟩
      subst hcj
      exact hh ((mem_hourIndicesOf tl h c).mp hj).2
    rw [getD_set, if_neg hjne]

lemma cheapCandidates_nodup (tl : List Slot) : (cheapCandidates tl).Nodup := by
  unfold cheapCandidates
  exact (List.perm_insertionSort _ _).nodup_iff.mpr
    (List.Nodup.filter _ (List.nodup_range tl.length))

lemma cheapCandidates_lt (tl : List Slot) :
    ∀ c ∈ cheapCandidates tl, c < tl.length := by
  intro c hc
  unfold cheapCandidates at hc
  have := (List.perm_insertionSort _ _).mem_iff.mp hc
  exact List.mem_range.mp (List.mem_of_mem_filter this)

lemma cheapCandidates_congr (tlA tlB : List Slot) (hlen : tlB.length = tlA.length)
    (hpr : ∀ i, i < tlA.length →
      (tlB.getD i default).price = (tlA.getD i default).price) :
    cheapCandidates tlB = cheapCandidates tlA := by
  have hged : ∀ i, (tlB.getD i default).price = (tlA.getD i default).price := by
    intro i
    by_cases hi : i < tlA.length
    · exact hpr i hi
    · rw [List.getD_eq_default, List.getD_eq_default]
      · omega
      · omega
  have hmap : tlB.map (·.price) = tlA.map (·.price) := by
    refine List.ext_getElem (by simp [hlen]) (fun i h1 h2 => ?_)
    simp only [List.getElem_map]
    have hia : i < tlA.length := by simpa using h2
    have hib : i < tlB.length := by simpa using h1
    rw [← List.getD_eq_getElem tlA default hia, ← List.getD_eq_getElem tlB default hib]
    exact hged i
  have hrel : (fun a b : Nat => (tlB.getD a default).price ≤ (tlB.getD b default).price)
      = (fun a b : Nat => (tlA.getD a default).price ≤ (tlA.getD b default).price) := by
    funext a b
    rw [hged a, hged b]
  unfold cheapCandidates
  dsimp only
  simp only [hlen, hmap, hged]

lemma smartFillGoNoRollback_all_skip (cfg : Config) (soc limit : ℚ) :
    ∀ (cs : List Nat) (st : List Slot × UsageMap),
      (∀ c ∈ cs, SkipAt cfg limit st c) →
      smartFillGoNoRollback cfg soc limit st cs = .ok st
  | [], _, _ => rfl
  | c :: rest, st, hsk => by
      have hd := hsk c (by simp)
      unfold SkipAt at hd
      have hstep : smartFillStepNoRollback cfg soc limit st c = .ok st := by
        unfold smartFillStepNoRollback
        dsimp only
        rcases hd with h1 | h2
        · rw [if_pos h1]
        · by_cases h1 : limit - usageGetD st.2 (st.1.getD c default).hour < 1
          · rw [if_pos h1]
          · rw [if_neg h1, if_pos h2]
      unfold smartFillGoNoRollback
      rw [hstep]
      exact smartFillGoNoRollback_all_skip cfg soc limit rest st
        (fun d hdm => hsk d (by simp [hdm]))

lemma smartFillGo_facts (cfg : Config) (tl : List Slot) (soc limit : ℚ)
    (hpos : ∀ j, j < tl.length →
      0 < (tl.getD j default).grid_wh + cfg.BIAS_WH_PER_QUARTER) :
    ∀ (cs : List Nat) (st : List Slot × UsageMap),
      cs.Nodup → (∀ c ∈ cs, c < tl.length) → SmartInv cfg tl st →
      ∃ st', smartFillGoNoRollback cfg soc limit st cs = .ok st' ∧
        SmartInv cfg tl st' ∧
        (∀ h, usageGetD st.2 h ≤ usageGetD st'.2 h) ∧
        (∀ j, j ∉ cs → st'.1.getD j default = st.1.getD j default) ∧
        (∀ c ∈ cs, SkipAt cfg limit st' c)
  | [], st, _, _, hInv =>
      ⟨st, rfl, hInv, fun _ => le_rfl, fun _ _ => rfl,
        fun c hc => absurd hc (List.not_mem_nil c)⟩
  | c :: rest, (tlc, huc), hnd, hlt, hInv => by
      simp only [List.nodup_cons] at hnd
      obtain ⟨hlen, hslots, husage⟩ := hInv
      have hc : c < tl.length := hlt c (by simp)
      have hclen : c < tlc.length := by
        simpa only [hlen] using hc
      by_cases h1 : limit - usageGetD huc (tlc.getD c default).hour < 1
      · have hstep : smartFillStepNoRollback cfg soc limit (tlc, huc) c = .ok (tlc, huc) := by
          unfold smartFillStepNoRollback
          dsimp only
          rw [if_pos h1]
        obtain ⟨st', hgo, hInv', hmono, hunch, hskips⟩ :=
          smartFillGo_facts cfg tl soc limit hpos rest (tlc, huc) hnd.2
            (fun d hd => hlt d (by simp [hd])) ⟨hlen, hslots, husage⟩
        refine ⟨st', ?_, hInv', hmono, ?_, ?_⟩
        · unfold smartFillGoNoRollback
          rw [hstep]
          exact hgo
        · intro j hj
          exact hunch j (fun hjr => hj (by simp [hjr]))
        · intro d hd
          rcases List.mem_cons.mp hd with hdc | hdr
          · subst hdc
            unfold SkipAt
            left
            rw [hunch d hnd.1]
            have := hmono (tlc.getD d default).hour
            dsimp only at this ⊢
            linarith
          · exact hskips d hdr
      · by_cases h2 : (tlc.getD c default).base_net_load_wh -
            ((tlc.getD c default).grid_wh + cfg.BIAS_WH_PER_QUARTER) < 1
        · have hstep : smartFillStepNoRollback cfg soc limit (tlc, huc) c =
              .ok (tlc, huc) := by
            unfold smartFillStepNoRollback
            dsimp only
            rw [if_neg h1, if_pos h2]
          obtain ⟨st', hgo, hInv', hmono, hunch, hskips⟩ :=
            smartFillGo_facts cfg tl soc limit hpos rest (tlc, huc) hnd.2
              (fun d hd => hlt d (by simp [hd])) ⟨hlen, hslots, husage⟩
          refine ⟨st', ?_, hInv', hmono, ?_, ?_⟩
          · unfold smartFillGoNoRollback
            rw [hstep]
            exact hgo
          · intro j hj
            exact hunch j (fun hjr => hj (by simp [hjr]))
          · intro d hd
            rcases List.mem_cons.mp hd with hdc | hdr
            · subst hdc
              unfold SkipAt
              right
              rw [hunch d hnd.1]
              exact h2
            · exact hskips d hdr
        · -- take branch
          have htp : 1 ≤ limit - usageGetD huc (tlc.getD c default).hour := not_lt.mp h1
          have htl2 : 1 ≤ (tlc.getD c default).base_net_load_wh -
              ((tlc.getD c default).grid_wh + cfg.BIAS_WH_PER_QUARTER) := not_lt.mp h2
          have htk_pos : 0 < min (limit - usageGetD huc (tlc.getD c default).hour)
              ((tlc.getD c default).base_net_load_wh -
                ((tlc.getD c default).grid_wh + cfg.BIAS_WH_PER_QUARTER)) :=
            lt_min (by linarith) (by linarith)
          have hgpos : 0 < (tlc.getD c default).grid_wh + cfg.BIAS_WH_PER_QUARTER := by
            have h4 := (hslots c hc).2.2.2
            have h5 := hpos c hc
            linarith
          have hcmem : c ∈ hourIndicesOf tlc (tlc.getD c default).hour :=
            (mem_hourIndicesOf tlc _ c).mpr ⟨hclen, rfl⟩
          have husagepos : 0 < usageGetD huc (tlc.getD c default).hour := by
            rw [husage]
            unfold hourAgg
            have hmem2 : (tlc.getD c default).grid_wh + cfg.BIAS_WH_PER_QUARTER ∈
                (hourIndicesOf tlc (tlc.getD c default).hour).map
                  (fun i => (tlc.getD i default).grid_wh + cfg.BIAS_WH_PER_QUARTER) :=
              List.mem_map_of_mem _ hcmem
            have hnn : ∀ x ∈ (hourIndicesOf tlc (tlc.getD c default).hour).map
                (fun i => (tlc.getD i default).grid_wh + cfg.BIAS_WH_PER_QUARTER),
                0 ≤ x := by
              intro x hx
              obtain ⟨i, hi, hxe⟩ := List.mem_map.mp hx
              have hilt : i < tl.length := by
                have := ((mem_hourIndicesOf tlc _ i).mp hi).1
                simpa only [← hlen] using this
              have hge := (hslots i hilt).2.2.2
              have hpi := hpos i hilt
              rw [← hxe]
              linarith
            exact lt_of_lt_of_le hgpos (List.single_le_sum hnn _ hmem2)
          have hsome : (huc.find? (fun p =>
              p.1 == (tlc.getD c default).hour)).isSome = true :=
            usageHas_of_ne_zero huc _ (ne_of_gt husagepos)
          have haddeq : usageAddExisting huc (tlc.getD c default).hour
              (min (limit - usageGetD huc (tlc.getD c default).hour)
                ((tlc.getD c default).base_net_load_wh -
                  ((tlc.getD c default).grid_wh + cfg.BIAS_WH_PER_QUARTER))) =
              .ok (huc.map (fun p => if p.1 == (tlc.getD c default).hour
                then (p.1, p.2 + min (limit - usageGetD huc (tlc.getD c default).hour)
                  ((tlc.getD c default).base_net_load_wh -
                    ((tlc.getD c default).grid_wh + cfg.BIAS_WH_PER_QUARTER)))
                else p)) := by
            unfold usageAddExisting
            rw [if_pos hsome]
          have hstep : smartFillStepNoRollback cfg soc limit (tlc, huc) c =
              .ok (tlc.set c { tlc.getD c default with
                  grid_wh := (tlc.getD c default).grid_wh +
                    min (limit - usageGetD huc (tlc.getD c default).hour)
                      ((tlc.getD c default).base_net_load_wh -
                        ((tlc.getD c default).grid_wh + cfg.BIAS_WH_PER_QUARTER)) },
                huc.map (fun p => if p.1 == (tlc.getD c default).hour
                  then (p.1, p.2 + min (limit - usageGetD huc (tlc.getD c default).hour)
                    ((tlc.getD c default).base_net_load_wh -
                      ((tlc.getD c default).grid_wh + cfg.BIAS_WH_PER_QUARTER)))
                  else p)) := by
            unfold smartFillStepNoRollback
            dsimp only
            rw [if_neg h1, if_neg h2, haddeq]
          have haddlook := fun h => usageGetD_addExisting huc (tlc.getD c default).hour
            (min (limit - usageGetD huc (tlc.getD c default).hour)
              ((tlc.getD c default).base_net_load_wh -
                ((tlc.getD c default).grid_wh + cfg.BIAS_WH_PER_QUARTER))) _ haddeq h
          have hInv2 : SmartInv cfg tl
              (tlc.set c { tlc.getD c default with
                  grid_wh := (tlc.getD c default).grid_wh +
                    min (limit - usageGetD huc (tlc.getD c default).hour)
                      ((tlc.getD c default).base_net_load_wh -
                        ((tlc.getD c default).grid_wh + cfg.BIAS_WH_PER_QUARTER)) },
                huc.map (fun p => if p.1 == (tlc.getD c default).hour
                  then (p.1, p.2 + min (limit - usageGetD huc (tlc.getD c default).hour)
                    ((tlc.getD c default).base_net_load_wh -
                      ((tlc.getD c default).grid_wh + cfg.BIAS_WH_PER_QUARTER)))
                  else p)) := by
            refine ⟨?_, ?_, ?_⟩
            · dsimp only
              rw [List.length_set]
              exact hlen
            · intro j hj
              dsimp only
              rw [getD_set]
              by_cases hcase : c = j ∧ c < tlc.length
              · rw [if_pos hcase]
                obtain ⟨hcj, _⟩ := hcase
                subst hcj
                have hs := hslots c hc
                refine ⟨hs.1, hs.2.1, hs.2.2.1, ?_⟩
                have := hs.2.2.2
                dsimp only
                linarith
              · rw [if_neg hcase]
                exact hslots j hj
            · intro h
              dsimp only
              rw [haddlook h, husage h, hourAgg_set_grid cfg tlc c hclen _ h]
              by_cases hh : (tlc.getD c default).hour = h
              · rw [if_pos hh, if_pos hh]
                ring
              · rw [if_neg hh, if_neg hh]
          obtain ⟨st', hgo, hInv', hmono, hunch, hskips⟩ :=
            smartFillGo_facts cfg tl soc limit hpos rest _ hnd.2
              (fun d hd => hlt d (by simp [hd])) hInv2
          have husage2 : ∀ h, usageGetD huc h ≤ usageGetD
              (huc.map (fun p => if p.1 == (tlc.getD c default).hour
                then (p.1, p.2 + min (limit - usageGetD huc (tlc.getD c default).hour)
                  ((tlc.getD c default).base_net_load_wh -
                    ((tlc.getD c default).grid_wh + cfg.BIAS_WH_PER_QUARTER)))
                else p)) h := by
            intro h
            rw [haddlook h]
            by_cases hh : (tlc.getD c default).hour = h
            · rw [if_pos hh]
              linarith
            · rw [if_neg hh]
              linarith
          refine ⟨st', ?_, hInv', ?_, ?_, ?_⟩
          · unfold smartFillGoNoRollback
            rw [hstep]
            exact hgo
          · intro h
            exact le_trans (husage2 h) (hmono h)
          · intro j hj
            have hjc : j ≠ c := fun he => hj (by simp [he])
            rw [hunch j (fun hjr => hj (by simp [hjr]))]
            dsimp only
            rw [getD_set, if_neg (fun hce => hjc hce.1.symm)]
          · intro d hd
            rcases List.mem_cons.mp hd with hdc | hdr
            · subst hdc
              have hslot' := hunch d hnd.1
              have hslot2 : ((tlc.set d { tlc.getD d default with
                  grid_wh := (tlc.getD d default).grid_wh +
                    min (limit - usageGetD huc (tlc.getD d default).hour)
                      ((tlc.getD d default).base_net_load_wh -
                        ((tlc.getD d default).grid_wh + cfg.BIAS_WH_PER_QUARTER)) },
                  huc.map (fun p => if p.1 == (tlc.getD d default).hour
                    then (p.1, p.2 + min (limit - usageGetD huc (tlc.getD d default).hour)
                      ((tlc.getD d default).base_net_load_wh -
                        ((tlc.getD d default).grid_wh + cfg.BIAS_WH_PER_QUARTER)))
                    else p)).1.getD d default) = { tlc.getD d default with
                  grid_wh := (tlc.getD d default).grid_wh +
                    min (limit - usageGetD huc (tlc.getD d default).hour)
                      ((tlc.getD d default).base_net_load_wh -
                        ((tlc.getD d default).grid_wh + cfg.BIAS_WH_PER_QUARTER)) } := by
                dsimp only
                rw [getD_set, if_pos ⟨rfl, hclen⟩]
              rcases le_total ((tlc.getD d default).base_net_load_wh -
                  ((tlc.getD d default).grid_wh + cfg.BIAS_WH_PER_QUARTER))
                  (limit - usageGetD huc (tlc.getD d default).hour) with hBA | hAB
              · unfold SkipAt
                right
                rw [hslot', hslot2]
                dsimp only
                rw [min_eq_right hBA]
                linarith
              · unfold SkipAt
                left
                rw [hslot', hslot2]
                dsimp only
                have hm := hmono (tlc.getD d default).hour
                have hlk := haddlook (tlc.getD d default).hour
                rw [if_pos rfl] at hlk
                dsimp only at hm
                rw [hlk] at hm
                rw [min_eq_left hAB] at hm
                linarith
            · exact hskips d hdr

/-- C8 (amended): if every slot's `grid_delta + bias` is strictly positive
before the first run, the Cheap-Hour Fill Optimizer completes without error
and its output is a fixed point: a second run with the same starting charge
and limit returns the first run's output unchanged.  Without that
precondition the spec's blanket idempotence claim fails: the tracked hourly
usage over-counts the recomputed one on slots with nonpositive
`grid_delta + bias`, and a second run takes more (refuted separately by the
counterexample). -/
theorem claim_C8 (cfg : Config) (tl : List Slot) (soc limit : ℚ)
    (hpos : ∀ j, j < tl.length →
      0 < (tl.getD j default).grid_wh + cfg.BIAS_WH_PER_QUARTER) :
    ∃ tl1, phase_smart_fill_cheap_hours cfg tl soc limit = .ok tl1 ∧
      phase_smart_fill_cheap_hours cfg tl1 soc limit = .ok tl1 := by
  by_cases hemp : tl = []
  · subst hemp
    exact ⟨[], rfl, rfl⟩
  · have hpos_mem : ∀ s ∈ tl, 0 < s.grid_wh + cfg.BIAS_WH_PER_QUARTER := by
      intro s hs
      obtain ⟨i, hlt, heq⟩ := List.getElem_of_mem hs
      have := hpos i hlt
      rw [List.getD_eq_getElem tl default hlt, heq] at this
      exact this
    have hInv0 : SmartInv cfg tl (tl, get_hourly_usage_map cfg tl) := by
      refine ⟨rfl, fun j hj => ⟨rfl, rfl, rfl, le_rfl⟩, fun h => ?_⟩
      exact usageGetD_usage_map cfg tl hpos_mem h
    obtain ⟨st1, hgo1, hInv1, hmono1, hunch1, hskips1⟩ :=
      smartFillGo_facts cfg tl soc limit hpos (cheapCandidates tl)
        (tl, get_hourly_usage_map cfg tl) (cheapCandidates_nodup tl)
        (cheapCandidates_lt tl) hInv0
    obtain ⟨hlen1, hslots1, husage1⟩ := hInv1
    have hrun1 : phase_smart_fill_cheap_hours cfg tl soc limit = .ok st1.1 := by
      unfold phase_smart_fill_cheap_hours
      dsimp only
      rw [smartFillGo_eq_noRollback cfg soc limit (cheapCandidates tl)
        (tl, get_hourly_usage_map cfg tl) hemp]
      rw [hgo1]
      rfl
    have hpos1 : ∀ s ∈ st1.1, 0 < s.grid_wh + cfg.BIAS_WH_PER_QUARTER := by
      intro s hs
      obtain ⟨i, hlt, heq⟩ := List.getElem_of_mem hs
      have hjlen : i < tl.length := by rwa [hlen1] at hlt
      have hge := (hslots1 i hjlen).2.2.2
      have hp := hpos i hjlen
      rw [List.getD_eq_getElem st1.1 default hlt, heq] at hge
      linarith
    have hcands : cheapCandidates st1.1 = cheapCandidates tl :=
      cheapCandidates_congr tl st1.1 hlen1 (fun i hi => (hslots1 i hi).2.1)
    have humap1 : ∀ h, usageGetD (get_hourly_usage_map cfg st1.1) h =
        usageGetD st1.2 h := by
      intro h
      rw [usageGetD_usage_map cfg st1.1 hpos1 h, husage1 h]
    have hskips2 : ∀ c ∈ cheapCandidates tl,
        SkipAt cfg limit (st1.1, get_hourly_usage_map cfg st1.1) c := by
      intro c hcm
      have hsk := hskips1 c hcm
      unfold SkipAt at hsk ⊢
      rcases hsk with hA | hB
      · left
        dsimp only
        rw [humap1]
        exact hA
      · right
        exact hB
    have hne1 : st1.1 ≠ [] := by
      intro hcon
      apply hemp
      have hz : st1.1.length = 0 := by rw [hcon]; rfl
      rw [hlen1] at hz
      exact List.length_eq_zero.mp hz
    have hrun2 : phase_smart_fill_cheap_hours cfg st1.1 soc limit = .ok st1.1 := by
      unfold phase_smart_fill_cheap_hours
      dsimp only
      rw [smartFillGo_eq_noRollback cfg soc limit (cheapCandidates st1.1)
        (st1.1, get_hourly_usage_map cfg st1.1) hne1]
      rw [hcands]
      rw [smartFillGoNoRollback_all_skip cfg soc limit (cheapCandidates tl)
        (st1.1, get_hourly_usage_map cfg st1.1) hskips2]
      rfl
    exact ⟨st1.1, hrun1, hrun2⟩

/-- Witness for C8 on `tl_fill1` (both slots import positively): the fill
pass completes and its output is unchanged by a second pass. -/
theorem claim_C8_witness :
    ∃ tl1, phase_smart_fill_cheap_hours cfg_fill tl_fill1 995 200 = .ok tl1 ∧
      phase_smart_fill_cheap_hours cfg_fill tl1 995 200 = .ok tl1 :=
  claim_C8 cfg_fill tl_fill1 995 200 (by with_unfolding_all decide)

end Homevolt
